import Mathlib

/-! Music search and playlist application: a verification development.

A shallow embedding of the logic of `src/App.jsx`,
`src/components/SearchForm.jsx`, `src/components/DataTable.jsx` and
`src/components/DetailCard.jsx` (a React application that searches the iTunes
catalogue, sorts the result table, keeps a playlist in `localStorage` and
plays previews), followed by theorems about it.

Conventions of the embedding

* A JavaScript string is a Lean `String`; its `length` is counted in UTF-16
  code units (`jsLength`).
* A JavaScript number that the code only compares or subtracts is an exact
  rational or integer; `NaN` is `none` where it can arise (`parseInt`, the
  time value of an Invalid Date).
* React state is passed explicitly: every handler is a function from the
  state before the event to the state after the re-render it causes,
  effects included.
* `JSON.stringify`, `JSON.parse` are platform built-ins, not code of the
  repository: they are a parameter (`JSONBuiltins`) with the laws the
  development relies on, and `refJSON` is a small implementation of them.
-/

namespace MusicApp

/-! ## JavaScript string primitives used by `SearchForm.jsx` -/

/-- White space and line terminators of ECMAScript (`StrWhiteSpaceChar`):
what `String.prototype.trim` removes and `parseInt` skips. -/
def isStrWhiteSpaceChar (c : Char) : Bool :=
  let n := c.toNat
  n == 0x09 || n == 0x0A || n == 0x0B || n == 0x0C || n == 0x0D || n == 0x20 ||
  n == 0xA0 || n == 0x1680 || (0x2000 ≤ n && n ≤ 0x200A) || n == 0x2028 ||
  n == 0x2029 || n == 0x202F || n == 0x205F || n == 0x3000 || n == 0xFEFF

/-- Number of UTF-16 code units of one character. -/
def utf16Units (c : Char) : Nat := if c.toNat < 0x10000 then 1 else 2

/-- The `length` property of a JavaScript string (UTF-16 code units). -/
def jsLength (s : List Char) : Nat := (s.map utf16Units).sum

/-- The method `String.prototype.trim`. -/
def jsTrim (s : List Char) : List Char :=
  ((s.dropWhile isStrWhiteSpaceChar).reverse.dropWhile isStrWhiteSpaceChar).reverse

/-- Value of an alphanumeric character as a digit (`0-9`, `a-z`, `A-Z`). -/
def digitValue (c : Char) : Option Nat :=
  let n := c.toNat
  if 48 ≤ n ∧ n ≤ 57 then some (n - 48)
  else if 97 ≤ n ∧ n ≤ 122 then some (n - 87)
  else if 65 ≤ n ∧ n ≤ 90 then some (n - 55)
  else none

/-- Value of a character as a digit of the given radix, if it is one. -/
def radixDigit (radix : Nat) (c : Char) : Option Nat :=
  match digitValue c with
  | some d => if d < radix then some d else none
  | none => none

/-- The longest leading run of radix digits of a string, as digit values. -/
def digitRun (radix : Nat) : List Char → List Nat
  | [] => []
  | c :: cs =>
    match radixDigit radix c with
    | some d => d :: digitRun radix cs
    | none => []

/-- Sign step of `parseInt`: a leading `-` or `+` is consumed. -/
def splitSign (s : List Char) : Int × List Char :=
  match s with
  | [] => (1, [])
  | c :: r => if c = '-' then (-1, r) else if c = '+' then (1, r) else (1, c :: r)

/-- Radix step of `parseInt` called without a radix: a leading `0x` or `0X`
is consumed and selects radix 16, otherwise the radix is 10. -/
def splitRadix (s : List Char) : Nat × List Char :=
  match s with
  | c :: d :: r => if c = '0' ∧ (d = 'x' ∨ d = 'X') then (16, r) else (10, c :: d :: r)
  | r => (10, r)

/-- The global function `parseInt(string)` of ECMAScript, called with one
argument: leading white space is skipped, a sign and a hexadecimal marker are
consumed, and the longest run of digits is read; `none` is `NaN` (no digit
could be read). -/
def parseInt (input : String) : Option Int :=
  let s := input.data.dropWhile isStrWhiteSpaceChar
  let signed := splitSign s
  let based := splitRadix signed.2
  match digitRun based.1 based.2 with
  | [] => none
  | d :: ds => some (signed.1 * ((d :: ds).foldl (fun acc x => acc * based.1 + x) 0 : Nat))

/-- The comparison `x < y` of JavaScript for `x` the result of `parseInt`:
false when `x` is `NaN`. -/
def jsLt (x : Option Int) (y : Int) : Bool :=
  match x with
  | none => false
  | some v => decide (v < y)

/-- The comparison `x > y` of JavaScript for `x` the result of `parseInt`:
false when `x` is `NaN`. -/
def jsGt (x : Option Int) (y : Int) : Bool :=
  match x with
  | none => false
  | some v => decide (v > y)

/-! ## `SearchForm.jsx` -/

/-- The state `formData` of the search form: five string-valued fields. -/
structure FormData where
  keyword : String
  mediaType : String
  country : String
  limit : String
  explicit : String
deriving DecidableEq, Repr

/-- The object `newErrors` built by `validateForm`: a property is present
(`some message`) exactly when the corresponding check failed. -/
structure FormErrors where
  keyword : Option String := none
  mediaType : Option String := none
  country : Option String := none
  limit : Option String := none
deriving DecidableEq, Repr

/-- The values offered by the media type `select` of the form. -/
def mediaTypes : List String :=
  ["music", "movie", "podcast", "musicVideo", "audiobook", "tvShow", "ebook"]

/-- The values offered by the country `select` of the form. -/
def countries : List String :=
  ["US", "GB", "CA", "AU", "JP", "KR", "ID", "SG", "MY", "TH"]

/-- The function `validateForm` of `SearchForm.jsx` (lines 34-57). -/
def validateForm (f : FormData) : FormErrors :=
  let trimmed := jsTrim f.keyword.data
  let keywordError : Option String :=
    if trimmed = [] then some "Search keyword is required"
    else if jsLength trimmed < 2 then some "Keyword must be at least 2 characters"
    else none
  let mediaTypeError : Option String :=
    if f.mediaType = "" then some "Please select a media type" else none
  let countryError : Option String :=
    if f.country = "" then some "Please select a country" else none
  let limitNum := parseInt f.limit
  let limitError : Option String :=
    if f.limit = "" ∨ jsLt limitNum 1 = true ∨ jsGt limitNum 200 = true then
      some "Limit must be between 1 and 200"
    else none
  { keyword := keywordError, mediaType := mediaTypeError,
    country := countryError, limit := limitError }

/-- The array `Object.keys(errors)`: the names of the properties present. -/
def errorKeys (e : FormErrors) : List String :=
  (if e.keyword.isSome then ["keyword"] else []) ++
  (if e.mediaType.isSome then ["mediaType"] else []) ++
  (if e.country.isSome then ["country"] else []) ++
  (if e.limit.isSome then ["limit"] else [])

/-- What `handleSubmit` does with the form: it either stores the validation
errors and returns, or passes the form data to `onSearch`. -/
inductive SubmitOutcome where
  | rejected (errors : FormErrors)
  | searched (params : FormData)
deriving DecidableEq, Repr

/-- The function `handleSubmit` of `SearchForm.jsx` (lines 59-71). -/
def handleSubmit (f : FormData) : SubmitOutcome :=
  let validationErrors := validateForm f
  if (errorKeys validationErrors).length > 0 then .rejected validationErrors
  else .searched f

/-! ## Data model of `App.jsx` -/

/-- The property `releaseDate` of an item, by what `new Date(releaseDate)`
makes of it: `null`; a text that is a date, given by its time value in
milliseconds since the epoch; or `invalid`, when the property is missing
(`undefined`) or holds a text that is not a date, so that `new Date` yields
an Invalid Date. -/
inductive ReleaseDate where
  | null
  | date (ms : ℤ)
  | invalid
deriving DecidableEq, Repr

/-- One item of the catalogue, as the search response delivers it, reduced to
the properties the modelled code reads. `trackPrice`, `collectionPrice`: a
JavaScript number, `none` when the property is `null` or missing.
`releaseDate`: see `ReleaseDate`. `previewUrl`: `none` when the property is
`null` or missing. -/
structure Track where
  trackId : Nat
  trackPrice : Option ℚ := none
  collectionPrice : Option ℚ := none
  releaseDate : ReleaseDate := ReleaseDate.null
  previewUrl : Option String := none
deriving DecidableEq, Repr

/-- A value returned by `JSON.parse`, as far as the playlist code can tell
values apart: an array of tracks, or any other value. -/
inductive JSValue where
  | playlist (tracks : List Track)
  | other
deriving DecidableEq, Repr

/-- The built-ins `JSON.stringify` and `JSON.parse` of the platform, applied
to playlists. `parse` returns `none` when the built-in throws a `SyntaxError`.
The laws are those of the built-ins that the development relies on: a written
playlist reads back as itself, the empty array is written as `[]`, and no
playlist is written as the empty string. -/
structure JSONBuiltins where
  stringify : List Track → String
  parse : String → Option JSValue
  parse_stringify : ∀ p, parse (stringify p) = some (JSValue.playlist p)
  stringify_nil : stringify [] = "[]"
  stringify_ne_empty : ∀ p, stringify p ≠ ""

/-- The state of the component `App`, together with the entry `musicPlaylist`
of `localStorage` (`none`: the key is absent, `getItem` returns `null`) and
the messages shown with `alert` so far. -/
structure AppState where
  searchResults : List Track := []
  error : Option String := none
  playlist : List Track := []
  sortBy : String := ""
  storage : Option String := none
  alerts : List String := []
deriving DecidableEq, Repr

/-- The state of `App` on a first visit: the initial values of `useState`,
nothing stored. -/
def initialState : AppState := {}

/-! ## Effects and handlers of `App.jsx` -/

/-- What the effect that loads the playlist (lines 15-21) does at mount:
it throws, or it completes and leaves a value in the state `playlist`. -/
inductive LoadOutcome where
  | raised
  | loaded (value : JSValue)
deriving DecidableEq, Repr

/-- The effect of lines 15-21: `getItem`, and `setPlaylist(JSON.parse(..))`
when the stored text is truthy (present and not the empty string). The call of
`JSON.parse` is not guarded. When the text is falsy the state keeps its
initial value `[]`. -/
def loadPlaylistEffect (J : JSONBuiltins) (storage : Option String) : LoadOutcome :=
  match storage with
  | none => .loaded (.playlist [])
  | some savedPlaylist =>
    if savedPlaylist = "" then .loaded (.playlist [])
    else
      match J.parse savedPlaylist with
      | none => .raised
      | some value => .loaded value

/-- The effect of lines 23-28, run after a render in which `playlist`
changed: a non-empty playlist is written, an empty one leaves the storage as
it is. -/
def savePlaylistEffect (J : JSONBuiltins) (playlist : List Track)
    (storage : Option String) : Option String :=
  if playlist.length > 0 then some (J.stringify playlist) else storage

/-- The lines 46-51 of `handleSearch`: a successful response replaces the
result list, and an empty one sets the message. -/
def handleSearchResponse (results : List Track) (s : AppState) : AppState :=
  { s with
    searchResults := results
    error := if results.length = 0 then
      some "No results found. Try different search terms." else none }

/-- The function `addToPlaylist` (lines 60-68), with the save effect that
follows the change of `playlist`. -/
def addToPlaylist (J : JSONBuiltins) (track : Track) (s : AppState) : AppState :=
  let isAlreadyInPlaylist := s.playlist.any (fun item => item.trackId == track.trackId)
  if !isAlreadyInPlaylist then
    let playlist := s.playlist ++ [track]
    { s with playlist := playlist, storage := savePlaylistEffect J playlist s.storage }
  else
    { s with alerts := s.alerts ++ ["This track is already in your playlist!"] }

/-- The function `removeFromPlaylist` (lines 70-74): the filtered playlist is
set and written by the handler itself, then the save effect runs. -/
def removeFromPlaylist (J : JSONBuiltins) (trackId : Nat) (s : AppState) : AppState :=
  let updatedPlaylist := s.playlist.filter (fun item => item.trackId != trackId)
  { s with
    playlist := updatedPlaylist
    storage := savePlaylistEffect J updatedPlaylist (some (J.stringify updatedPlaylist)) }

/-- The function `clearPlaylist` (lines 76-81); `confirmed` is the answer of
`window.confirm`. The key is removed, then the save effect runs. -/
def clearPlaylist (J : JSONBuiltins) (confirmed : Bool) (s : AppState) : AppState :=
  if confirmed then
    { s with playlist := [], storage := savePlaylistEffect J [] none }
  else s

/-- The operator `x || fallback` of JavaScript on a numeric property:
`null`, a missing property and `0` are falsy. -/
def jsOr (x : Option ℚ) (fallback : ℚ) : ℚ :=
  match x with
  | some v => if v = 0 then fallback else v
  | none => fallback

/-- The time value of `new Date(releaseDate)`: `new Date(null)` is the epoch,
time value `0`; the time value of an Invalid Date is `NaN` (`none`). -/
def dateValue (releaseDate : ReleaseDate) : Option ℤ :=
  match releaseDate with
  | .null => some 0
  | .date ms => some ms
  | .invalid => none

/-- The difference `x - y` of two dates, which is the difference of their
time values: `NaN` (`none`) when one of them is `NaN`. -/
def jsSub (x y : Option ℤ) : Option ℤ :=
  match x, y with
  | some a, some b => some (a - b)
  | _, _ => none

/-- The number `Array.prototype.sort` makes of the value a comparator
returned (`SortCompare`): `NaN` counts as `+0`. -/
def nanToZero (v : Option ℤ) : ℤ :=
  match v with
  | some n => n
  | none => 0

/-- The time value by which dated tracks are ordered, with `0` in place of
`NaN`. -/
def dateKey (releaseDate : ReleaseDate) : ℤ := nanToZero (dateValue releaseDate)

/-- The method `Array.prototype.sort(compareFn)` on a copy of the array.
ECMAScript requires the sort to be stable, and for a consistent comparator
(as differences of numeric keys are) the result is the one stable
rearrangement in which `compareFn a b ≤ 0` for `a` before `b`; insertion sort
computes it. For a comparator that is not consistent (the `releaseDate`
comparator when a date is invalid) ECMAScript leaves the order to the
implementation; insertion order is one such order, `mergeArraySort` yields
another, and the theorems say which of them they are about. -/
def arraySort {α β : Type} [Zero β] [LE β] [DecidableRel (fun x y : β => x ≤ y)]
    (compareFn : α → α → β) (xs : List α) : List α :=
  xs.insertionSort (fun a b => compareFn a b ≤ 0)

/-- The function `sortResults` (lines 83-94). -/
def sortResults (sortType : String) (s : AppState) : AppState :=
  let sortedResults :=
    if sortType = "releaseDate" then
      arraySort
        (fun a b : Track => nanToZero (jsSub (dateValue b.releaseDate) (dateValue a.releaseDate)))
        s.searchResults
    else if sortType = "price" then
      arraySort (fun a b : Track => jsOr a.trackPrice 0 - jsOr b.trackPrice 0)
        s.searchResults
    else s.searchResults
  { s with sortBy := sortType, searchResults := sortedResults }

/-- A second algorithm that may stand for `Array.prototype.sort(compareFn)`:
the stable merge sort. It yields the same result as `arraySort` whenever the
comparator is a difference of keys (`mergeArraySort_sub_eq`), and shows what
ECMAScript permits when the comparator is not consistent. -/
def mergeArraySort {α β : Type} [Zero β] [LE β] [DecidableRel (fun x y : β => x ≤ y)]
    (compareFn : α → α → β) (xs : List α) : List α :=
  xs.mergeSort (fun a b => decide (compareFn a b ≤ 0))

/-- The `releaseDate` branch of `sortResults` (lines 84-88 and 93) on a
platform whose `Array.prototype.sort` is `platformSort`. -/
def sortByReleaseDateWith (platformSort : (Track → Track → ℤ) → List Track → List Track)
    (s : AppState) : AppState :=
  { s with
    sortBy := "releaseDate"
    searchResults :=
      platformSort
        (fun a b : Track => nanToZero (jsSub (dateValue b.releaseDate) (dateValue a.releaseDate)))
        s.searchResults }

/-- The price shown for a track and added up by `calculateTotalPrice`
(`DetailCard.jsx` lines 34 and 142, `DataTable.jsx` line 119):
`trackPrice || collectionPrice || 0`. -/
def displayedPrice (t : Track) : ℚ :=
  jsOr t.trackPrice (jsOr t.collectionPrice 0)

/-- The effective price in the words of the specification: `trackPrice` if
present, else `collectionPrice` if present, else `0`. Used only to state what
the specification asks of the price sort. -/
def specEffectivePrice (t : Track) : ℚ :=
  match t.trackPrice with
  | some p => p
  | none =>
    match t.collectionPrice with
    | some c => c
    | none => 0

/-- The key by which `sortResults('price')` compares: `trackPrice || 0`. -/
def sortPrice (t : Track) : ℚ := jsOr t.trackPrice 0

/-- An event of the playlist: a call of one of the three handlers. -/
inductive PlaylistEvent where
  | add (track : Track)
  | remove (trackId : Nat)
  | clear (confirmed : Bool)
deriving DecidableEq, Repr

/-- The state after one playlist event. -/
def step (J : JSONBuiltins) (s : AppState) : PlaylistEvent → AppState
  | .add track => addToPlaylist J track s
  | .remove trackId => removeFromPlaylist J trackId s
  | .clear confirmed => clearPlaylist J confirmed s

/-- The state after a sequence of playlist events, first event first. -/
def run (J : JSONBuiltins) (s : AppState) (events : List PlaylistEvent) : AppState :=
  events.foldl (step J) s

/-- The storage holds the text of the playlist, or the playlist is empty and
the key is absent. -/
def Synced (J : JSONBuiltins) (s : AppState) : Prop :=
  s.storage = some (J.stringify s.playlist) ∨ (s.playlist = [] ∧ s.storage = none)

/-! ## A reference implementation of the JSON built-ins

The laws of `JSONBuiltins` are satisfiable: `refJSON` writes a playlist as a
JSON array that is empty for the empty playlist and otherwise holds one
number, the code of the playlist under the standard encoding of lists of
tuples, and reads such texts back. Every other text is reported as a
`SyntaxError`. It is not the browser's implementation; it agrees with it on
the texts the examples below use: `[]`, the empty array, and an opening brace
alone, which is not JSON (a `SyntaxError`). -/

/-- A release date as an encodable value. -/
def ReleaseDate.toOption (r : ReleaseDate) : Option (Option ℤ) :=
  match r with
  | .invalid => none
  | .null => some none
  | .date ms => some (some ms)

/-- The release date of an encodable value. -/
def ReleaseDate.ofOption (x : Option (Option ℤ)) : ReleaseDate :=
  match x with
  | none => .invalid
  | some none => .null
  | some (some ms) => .date ms

theorem ReleaseDate.ofOption_toOption (r : ReleaseDate) :
    ReleaseDate.ofOption r.toOption = r := by
  cases r <;> rfl

/-- A track as a tuple of encodable values. -/
def Track.toTuple (t : Track) :
    ℕ × Option ℚ × Option ℚ × Option (Option ℤ) × Option (List ℕ) :=
  (t.trackId, t.trackPrice, t.collectionPrice, t.releaseDate.toOption,
    t.previewUrl.map (fun u => u.data.map Char.toNat))

/-- The track of a tuple. -/
def Track.ofTuple (x : ℕ × Option ℚ × Option ℚ × Option (Option ℤ) × Option (List ℕ)) :
    Track :=
  { trackId := x.1, trackPrice := x.2.1, collectionPrice := x.2.2.1,
    releaseDate := ReleaseDate.ofOption x.2.2.2.1,
    previewUrl := x.2.2.2.2.map (fun ns => String.mk (ns.map Char.ofNat)) }

theorem Track.ofTuple_toTuple (t : Track) : Track.ofTuple t.toTuple = t := by
  rcases t with ⟨i, p, c, r, u⟩
  cases u with
  | none => simp [Track.ofTuple, Track.toTuple, ReleaseDate.ofOption_toOption]
  | some u =>
    simp [Track.ofTuple, Track.toTuple, List.map_map, Function.comp_def,
      ReleaseDate.ofOption_toOption]

instance : Encodable Track :=
  Encodable.ofLeftInverse Track.toTuple Track.ofTuple Track.ofTuple_toTuple

/-- The decimal digits of a number, most significant first; empty for `0`. -/
def decimalText (n : ℕ) : List Char :=
  (Nat.digits 10 n).reverse.map (fun d => Char.ofNat (48 + d))

/-- The number written by a string of decimal digits, `none` when a character
is not a digit. -/
def readDecimal (cs : List Char) : Option ℕ :=
  if cs.all (fun c => decide (48 ≤ c.toNat ∧ c.toNat ≤ 57)) then
    some (Nat.ofDigits 10 (cs.reverse.map (fun c => c.toNat - 48)))
  else none

theorem toNat_digitChar (d : ℕ) (h : d < 10) : (Char.ofNat (48 + d)).toNat = 48 + d := by
  interval_cases d <;> rfl

theorem readDecimal_decimalText (n : ℕ) : readDecimal (decimalText n) = some n := by
  have hd : ∀ d ∈ Nat.digits 10 n, d < 10 := fun d h => Nat.digits_lt_base (by norm_num) h
  have hall : (decimalText n).all (fun c => decide (48 ≤ c.toNat ∧ c.toNat ≤ 57)) = true := by
    simp only [decimalText, List.all_eq_true, List.mem_map, List.mem_reverse]
    rintro c ⟨d, hmem, rfl⟩
    have := hd d hmem
    rw [toNat_digitChar d this]
    simp; omega
  have hmap : (decimalText n).reverse.map (fun c => c.toNat - 48) = Nat.digits 10 n := by
    simp only [decimalText, ← List.map_reverse, List.reverse_reverse, List.map_map]
    conv_rhs => rw [← List.map_id (Nat.digits 10 n)]
    apply List.map_congr_left
    intro d hmem
    simp [toNat_digitChar d (hd d hmem)]
  rw [readDecimal, if_pos hall, hmap, Nat.ofDigits_digits]

/-- Writing a playlist: `[` digits `]`. -/
def refStringify (p : List Track) : String :=
  String.mk ('[' :: (decimalText (Encodable.encode p) ++ [']']))

/-- Reading a text: `[` digits `]` is the playlist with that code. -/
def refParse (s : String) : Option JSValue :=
  match s.data with
  | [] => none
  | c :: rest =>
    if c = '[' ∧ rest.getLast? = some ']' then
      match readDecimal rest.dropLast with
      | some n =>
        match (Encodable.decode n : Option (List Track)) with
        | some p => some (.playlist p)
        | none => some .other
      | none => none
    else none

theorem refParse_refStringify (p : List Track) :
    refParse (refStringify p) = some (.playlist p) := by
  simp [refParse, refStringify, readDecimal_decimalText]

theorem refStringify_nil : refStringify [] = "[]" := by
  simp [refStringify, decimalText]

theorem refStringify_ne_empty (p : List Track) : refStringify p ≠ "" := by
  intro h
  have := congrArg String.data h
  simp [refStringify] at this

/-- A reference implementation of the JSON built-ins. -/
def refJSON : JSONBuiltins where
  stringify := refStringify
  parse := refParse
  parse_stringify := refParse_refStringify
  stringify_nil := refStringify_nil
  stringify_ne_empty := refStringify_ne_empty


/-! ## Preview playback: `DataTable.jsx` and `DetailCard.jsx`

Each of the two components keeps its own state `currentlyPlaying` and renders
its own `audio` element; `handlePlayPause` and `handleAudioEnded` are
declared once in each component. -/

/-- A command issued to the `audio` element of a component. -/
inductive AudioCommand where
  | pause
  | loadAndPlay (src : String)
deriving DecidableEq, Repr

/-- The playback state of one component: the state `currentlyPlaying`
(`none` is `null`, nothing playing), the commands issued so far to the
component's `audio` element, and the messages shown with `alert`. -/
structure PlayerState where
  currentlyPlaying : Option Nat := none
  commands : List AudioCommand := []
  alerts : List String := []
deriving DecidableEq, Repr

/-- The state of a component when it mounts: `useState(null)`. -/
def initialPlayer : PlayerState := {}

/-- Truthiness of the property `previewUrl`: `null`, a missing property and
the empty string are falsy. -/
def hasPreview (previewUrl : Option String) : Bool :=
  match previewUrl with
  | some url => url != ""
  | none => false

namespace DataTable

/-- The function `handlePlayPause` of `DataTable.jsx` (lines 8-28). -/
def handlePlayPause (trackId : Nat) (previewUrl : Option String) (p : PlayerState) :
    PlayerState :=
  if !hasPreview previewUrl then
    { p with alerts := p.alerts ++ ["No preview available for this track"] }
  else if p.currentlyPlaying = some trackId then
    { p with commands := p.commands ++ [AudioCommand.pause], currentlyPlaying := none }
  else
    { p with
      commands := p.commands ++ [AudioCommand.loadAndPlay (previewUrl.getD "")]
      currentlyPlaying := some trackId }

/-- The function `handleAudioEnded` of `DataTable.jsx` (lines 30-32). -/
def handleAudioEnded (p : PlayerState) : PlayerState :=
  { p with currentlyPlaying := none }

end DataTable

namespace DetailCard

/-- The function `handlePlayPause` of `DetailCard.jsx` (lines 8-26). -/
def handlePlayPause (trackId : Nat) (previewUrl : Option String) (p : PlayerState) :
    PlayerState :=
  if !hasPreview previewUrl then
    { p with alerts := p.alerts ++ ["No preview available for this track"] }
  else if p.currentlyPlaying = some trackId then
    { p with commands := p.commands ++ [AudioCommand.pause], currentlyPlaying := none }
  else
    { p with
      commands := p.commands ++ [AudioCommand.loadAndPlay (previewUrl.getD "")]
      currentlyPlaying := some trackId }

/-- The function `handleAudioEnded` of `DetailCard.jsx` (lines 28-30). -/
def handleAudioEnded (p : PlayerState) : PlayerState :=
  { p with currentlyPlaying := none }

end DetailCard

/-- The playback state of the page when both views are rendered: the one of
the results table (`DataTable`) and the one of the playlist cards
(`DetailCard`). -/
structure Players where
  results : PlayerState := {}
  playlist : PlayerState := {}
deriving DecidableEq, Repr

/-- A playback event of the page: a click on a preview button of one of the
two views, or the `ended` event of one of the two `audio` elements. -/
inductive PlaybackEvent where
  | resultsToggle (trackId : Nat) (previewUrl : Option String)
  | playlistToggle (trackId : Nat) (previewUrl : Option String)
  | resultsEnded
  | playlistEnded
deriving DecidableEq, Repr

/-- The playback state of the page after one event: the handler of the
component that received it runs on that component's state. -/
def playbackStep (v : Players) : PlaybackEvent → Players
  | .resultsToggle trackId previewUrl =>
    { v with results := DataTable.handlePlayPause trackId previewUrl v.results }
  | .playlistToggle trackId previewUrl =>
    { v with playlist := DetailCard.handlePlayPause trackId previewUrl v.playlist }
  | .resultsEnded => { v with results := DataTable.handleAudioEnded v.results }
  | .playlistEnded => { v with playlist := DetailCard.handleAudioEnded v.playlist }

/-- The playback state of the page after a sequence of events. -/
def playbackRun (v : Players) (events : List PlaybackEvent) : Players :=
  events.foldl playbackStep v

/-! ## Request construction: `handleSearch` of `App.jsx` -/

/-- The characters `encodeURIComponent` leaves as they are: the letters and
digits of ASCII and the marks `- _ . ! ~ * ( )` and the apostrophe. -/
def isUriUnreserved (c : Char) : Bool :=
  let n := c.toNat
  (48 ≤ n && n ≤ 57) || (65 ≤ n && n ≤ 90) || (97 ≤ n && n ≤ 122) ||
  n == 45 || n == 95 || n == 46 || n == 33 || n == 126 || n == 42 || n == 39 ||
  n == 40 || n == 41

/-- The UTF-8 encoding of a character, as byte values. -/
def utf8Bytes (c : Char) : List Nat :=
  let n := c.toNat
  if n < 0x80 then [n]
  else if n < 0x800 then [0xC0 + n / 64, 0x80 + n % 64]
  else if n < 0x10000 then [0xE0 + n / 4096, 0x80 + n / 64 % 64, 0x80 + n % 64]
  else [0xF0 + n / 262144, 0x80 + n / 4096 % 64, 0x80 + n / 64 % 64, 0x80 + n % 64]

/-- The upper-case hexadecimal digit of a value below 16. -/
def hexDigit (d : Nat) : Char := "0123456789ABCDEF".data.getD d '0'

/-- The escape sequence of one byte: `%` and two hexadecimal digits. -/
def percentEncodeByte (b : Nat) : List Char := ['%', hexDigit (b / 16), hexDigit (b % 16)]

/-- The escape sequences of a list of bytes. -/
def percentEncodeBytes : List Nat → List Char
  | [] => []
  | b :: bs => percentEncodeByte b ++ percentEncodeBytes bs

/-- What `encodeURIComponent` writes for one character. -/
def encodeChar (c : Char) : List Char :=
  if isUriUnreserved c then [c] else percentEncodeBytes (utf8Bytes c)

/-- What `encodeURIComponent` writes for a sequence of characters. -/
def encodeChars : List Char → List Char
  | [] => []
  | c :: cs => encodeChar c ++ encodeChars cs

/-- The global function `encodeURIComponent` of ECMAScript on a well-formed
string: every character that is not unreserved is replaced by the escape
sequences of its UTF-8 bytes. -/
def encodeURIComponent (s : String) : String := String.mk (encodeChars s.data)

namespace handleSearch

/-- The constant `explicitParam` of `handleSearch` (line 36). -/
def explicitParam (explicit : String) : String :=
  if explicit = "yes" then "Yes" else if explicit = "no" then "No" else ""

/-- The constant `url` of `handleSearch` (line 38): the template literal,
whose last part is present when `explicitParam` is truthy (not empty). -/
def url (searchParams : FormData) : String :=
  "https://itunes.apple.com/search?term=" ++ encodeURIComponent searchParams.keyword ++
    "&media=" ++ searchParams.mediaType ++ "&country=" ++ searchParams.country ++
    "&limit=" ++ searchParams.limit ++
    (if explicitParam searchParams.explicit ≠ "" then
      "&explicit=" ++ explicitParam searchParams.explicit
    else "")

end handleSearch

/-- The pieces of a text between the occurrences of a separator. -/
def splitOn (sep : Char) : List Char → List (List Char)
  | [] => [[]]
  | c :: cs =>
    if c = sep then [] :: splitOn sep cs
    else
      match splitOn sep cs with
      | [] => [[c]]
      | seg :: segs => (c :: seg) :: segs

/-- A text cut at the first occurrence of a separator: what precedes it and
what follows it. -/
def splitAtFirst (sep : Char) : List Char → List Char × List Char
  | [] => ([], [])
  | c :: cs =>
    if c = sep then ([], cs)
    else ((c :: (splitAtFirst sep cs).1), (splitAtFirst sep cs).2)

/-- The query of a URL: the text after the first `?`. -/
def queryString (url : List Char) : List Char :=
  (url.dropWhile (fun c => c != '?')).drop 1

/-- The parameters a request URL carries, as name and value in order: the
query is cut at every `&` and each piece at its first `=`. Values are left
as written (not decoded). Used to state what the built URL carries. -/
def queryParams (url : String) : List (String × String) :=
  (splitOn '&' (queryString url.data)).map
    (fun seg => (String.mk (splitAtFirst '=' seg).1, String.mk (splitAtFirst '=' seg).2))

/-! ## Theorems: `SearchForm.jsx` -/

/-- The error object has no property exactly when `Object.keys` is empty. -/
theorem errorKeys_eq_nil_iff (e : FormErrors) : errorKeys e = [] ↔ e = {} := by
  rcases e with ⟨k, m, c, l⟩
  cases k <;> cases m <;> cases c <;> cases l <;> simp [errorKeys]

/-- What `validateForm` accepts, read off the code: the error object is empty
exactly when the trimmed keyword has at least two code units, media type,
country and limit are non-empty strings, and the number read by `parseInt`,
if there is one, lies in `[1, 200]`. A limit from which `parseInt` reads no
number (`NaN`) passes both comparisons. -/
theorem validateForm_eq_empty_iff (f : FormData) :
    validateForm f = {} ↔
      2 ≤ jsLength (jsTrim f.keyword.data) ∧ f.mediaType ≠ "" ∧ f.country ≠ "" ∧
      f.limit ≠ "" ∧ ∀ n, parseInt f.limit = some n → 1 ≤ n ∧ n ≤ 200 := by
  have hlen : jsTrim f.keyword.data = [] → jsLength (jsTrim f.keyword.data) < 2 := by
    intro h; rw [h]; decide
  have hlim : (jsLt (parseInt f.limit) 1 = true ∨ jsGt (parseInt f.limit) 200 = true) ↔
      ¬ ∀ n, parseInt f.limit = some n → 1 ≤ n ∧ n ≤ 200 := by
    cases hp : parseInt f.limit with
    | none => simp [jsLt, jsGt]
    | some v => simp [jsLt, jsGt]; omega
  simp only [validateForm, FormErrors.mk.injEq]
  constructor
  · rintro ⟨hk, hm, hc, hl⟩
    refine ⟨?_, ?_, ?_, ?_, ?_⟩
    · by_contra hlt
      by_cases h0 : jsTrim f.keyword.data = []
      · simp [h0] at hk
      · have : jsLength (jsTrim f.keyword.data) < 2 := by omega
        simp [h0, this] at hk
    · intro h; simp [h] at hm
    · intro h; simp [h] at hc
    · intro h; simp [h] at hl
    · by_contra hn
      have := hlim.mpr hn
      simp [this] at hl
  · rintro ⟨hk, hm, hc, hl, hn⟩
    have h0 : jsTrim f.keyword.data ≠ [] := fun h => by have := hlen h; omega
    have h2 : ¬ jsLength (jsTrim f.keyword.data) < 2 := by omega
    have h3 : ¬ (jsLt (parseInt f.limit) 1 = true ∨ jsGt (parseInt f.limit) 200 = true) :=
      fun h => hlim.mp h hn
    refine ⟨by simp [h0, h2], by simp [hm], by simp [hc], ?_⟩
    rw [if_neg]
    rintro (h | h)
    · exact hl h
    · exact h3 h

/-- Claim C1 (what the code does at the failing input): a limit from which
`parseInt` reads no integer is not rejected. For the limit `.5`, which a
numeric input field can hold, and for the limit `abc`, `parseInt` yields `NaN`,
`validateForm` returns the empty error object (no limit error) and
`handleSubmit` passes the form on to the search, although the limit does not
parse as an integer in `[1, 200]`. Limits that parse to an integer outside the
range, and the empty limit, are rejected. -/
theorem validateForm_accepts_unparsable_limit :
    parseInt ".5" = none ∧ parseInt "abc" = none ∧
    validateForm ⟨"ab", "music", "US", ".5", "all"⟩ = {} ∧
    validateForm ⟨"ab", "music", "US", "abc", "all"⟩ = {} ∧
    handleSubmit ⟨"ab", "music", "US", ".5", "all"⟩
      = .searched ⟨"ab", "music", "US", ".5", "all"⟩ ∧
    handleSubmit ⟨"ab", "music", "US", "abc", "all"⟩
      = .searched ⟨"ab", "music", "US", "abc", "all"⟩ ∧
    (validateForm ⟨"ab", "music", "US", "0", "all"⟩).limit
      = some "Limit must be between 1 and 200" ∧
    (validateForm ⟨"ab", "music", "US", "201", "all"⟩).limit
      = some "Limit must be between 1 and 200" ∧
    (validateForm ⟨"ab", "music", "US", "", "all"⟩).limit
      = some "Limit must be between 1 and 200" := by
  decide

/-! ## Theorems: the playlist of `App.jsx` -/

/-- The test `playlist.some(item => item.trackId === track.trackId)`. -/
theorem any_trackId_iff (p : List Track) (t : Track) :
    p.any (fun item => item.trackId == t.trackId) = true ↔
      ∃ item ∈ p, item.trackId = t.trackId := by
  simp [List.any_eq_true]

/-- Adding a track whose identifier is in the playlist only shows the notice. -/
theorem addToPlaylist_of_mem (J : JSONBuiltins) (t : Track) (s : AppState)
    (h : ∃ item ∈ s.playlist, item.trackId = t.trackId) :
    addToPlaylist J t s =
      { s with alerts := s.alerts ++ ["This track is already in your playlist!"] } := by
  have := (any_trackId_iff s.playlist t).mpr h
  simp [addToPlaylist, this]

/-- Adding a track whose identifier is new appends it and writes the playlist. -/
theorem addToPlaylist_of_not_mem (J : JSONBuiltins) (t : Track) (s : AppState)
    (h : ¬ ∃ item ∈ s.playlist, item.trackId = t.trackId) :
    addToPlaylist J t s =
      { s with playlist := s.playlist ++ [t]
               storage := some (J.stringify (s.playlist ++ [t])) } := by
  have hany : s.playlist.any (fun item => item.trackId == t.trackId) = false := by
    rw [← Bool.not_eq_true, any_trackId_iff]; exact h
  simp [addToPlaylist, hany, savePlaylistEffect]

/-- Each handler keeps the identifiers of the playlist pairwise distinct. -/
theorem step_nodup (J : JSONBuiltins) (s : AppState) (e : PlaylistEvent)
    (h : (s.playlist.map Track.trackId).Nodup) :
    ((step J s e).playlist.map Track.trackId).Nodup := by
  cases e with
  | add t =>
    by_cases hm : ∃ item ∈ s.playlist, item.trackId = t.trackId
    · simp only [step, addToPlaylist_of_mem J t s hm]; exact h
    · simp only [step, addToPlaylist_of_not_mem J t s hm, List.map_append, List.map_cons,
        List.map_nil]
      refine List.Nodup.append h (List.nodup_singleton _) ?_
      intro x hx hx1
      simp only [List.mem_singleton] at hx1
      subst hx1
      rw [List.mem_map] at hx
      exact hm hx
  | remove i =>
    simp only [step, removeFromPlaylist]
    exact h.sublist ((List.filter_sublist _).map _)
  | clear c =>
    cases c
    · simpa [step, clearPlaylist] using h
    · simp [step, clearPlaylist]

/-- The identifiers stay pairwise distinct along any sequence of events. -/
theorem run_nodup (J : JSONBuiltins) (events : List PlaylistEvent) :
    ∀ s : AppState, (s.playlist.map Track.trackId).Nodup →
      ((run J s events).playlist.map Track.trackId).Nodup := by
  induction events with
  | nil => intro s h; exact h
  | cons e es ih => intro s h; exact ih (step J s e) (step_nodup J s e h)

/-- Claim C2: `addToPlaylist(t)` on a playlist that has an entry with the
identifier of `t` leaves playlist and storage as they are and shows the
notice; on a playlist that has none it appends `t` at the end. Adding the
same track twice gives the playlist of adding it once, the second call shows
the notice, and if the identifiers of the playlist were pairwise distinct
exactly one entry has the identifier of `t` afterwards. -/
theorem addToPlaylist_spec (J : JSONBuiltins) (s : AppState) (t : Track) :
    ((∃ item ∈ s.playlist, item.trackId = t.trackId) →
      (addToPlaylist J t s).playlist = s.playlist ∧
      (addToPlaylist J t s).storage = s.storage ∧
      (addToPlaylist J t s).alerts
        = s.alerts ++ ["This track is already in your playlist!"]) ∧
    ((¬ ∃ item ∈ s.playlist, item.trackId = t.trackId) →
      (addToPlaylist J t s).playlist = s.playlist ++ [t] ∧
      (addToPlaylist J t s).alerts = s.alerts) ∧
    (addToPlaylist J t (addToPlaylist J t s)).playlist = (addToPlaylist J t s).playlist ∧
    (addToPlaylist J t (addToPlaylist J t s)).alerts
      = (addToPlaylist J t s).alerts ++ ["This track is already in your playlist!"] ∧
    ((s.playlist.map Track.trackId).Nodup →
      ((addToPlaylist J t (addToPlaylist J t s)).playlist.map Track.trackId).count t.trackId
        = 1) := by
  have hin : ∃ item ∈ (addToPlaylist J t s).playlist, item.trackId = t.trackId := by
    by_cases hm : ∃ item ∈ s.playlist, item.trackId = t.trackId
    · rw [addToPlaylist_of_mem J t s hm]; exact hm
    · rw [addToPlaylist_of_not_mem J t s hm]; exact ⟨t, by simp, rfl⟩
  have hsecond := addToPlaylist_of_mem J t (addToPlaylist J t s) hin
  refine ⟨fun hm => ?_, fun hm => ?_, ?_, ?_, fun hnd => ?_⟩
  · rw [addToPlaylist_of_mem J t s hm]; exact ⟨rfl, rfl, rfl⟩
  · rw [addToPlaylist_of_not_mem J t s hm]; exact ⟨rfl, rfl⟩
  · rw [hsecond]
  · rw [hsecond]
  · rw [hsecond]
    have hnd1 : ((addToPlaylist J t s).playlist.map Track.trackId).Nodup :=
      step_nodup J s (.add t) hnd
    obtain ⟨item, hitem, hid⟩ := hin
    exact List.count_eq_one_of_mem hnd1 (hid ▸ List.mem_map_of_mem _ hitem)

/-- Claim C2 at a concrete playlist: track 7 is added twice to the playlist
holding track 3. -/
theorem addToPlaylist_spec_witness :
    (addToPlaylist refJSON { trackId := 7 }
        (addToPlaylist refJSON { trackId := 7 }
          { initialState with playlist := [{ trackId := 3 }] })).playlist
      = [{ trackId := 3 }, { trackId := 7 }] ∧
    ((addToPlaylist refJSON { trackId := 7 }
        (addToPlaylist refJSON { trackId := 7 }
          { initialState with playlist := [{ trackId := 3 }] })).playlist.map
        Track.trackId).count 7 = 1 := by
  have h := addToPlaylist_spec refJSON
    { initialState with playlist := [{ trackId := 3 }] } { trackId := 7 }
  refine ⟨?_, h.2.2.2.2 (by decide)⟩
  rw [h.2.2.1, (h.2.1 (by decide)).1]
  rfl

/-- Claim C3: in every state reached from the empty playlist by a sequence of
`addToPlaylist`, `removeFromPlaylist` and `clearPlaylist` calls no two entries
share a `trackId`, and each of the three handlers keeps the identifiers
pairwise distinct. -/
theorem playlist_ids_unique (J : JSONBuiltins) :
    (∀ events : List PlaylistEvent,
      ((run J initialState events).playlist.map Track.trackId).Nodup) ∧
    (∀ (s : AppState) (e : PlaylistEvent),
      (s.playlist.map Track.trackId).Nodup →
        ((step J s e).playlist.map Track.trackId).Nodup) := by
  refine ⟨fun events => run_nodup J events initialState ?_, step_nodup J⟩
  simp [initialState]

/-- Claim C3 at a concrete run: add 1, add 2, add 1 again, remove 2, add 2. -/
theorem playlist_ids_unique_witness :
    ((run refJSON initialState
        [.add { trackId := 1 }, .add { trackId := 2 }, .add { trackId := 1 },
          .remove 2, .add { trackId := 2 }]).playlist.map Track.trackId).Nodup ∧
    ((step refJSON { initialState with playlist := [{ trackId := 1 }] }
        (.add { trackId := 1 })).playlist.map Track.trackId).Nodup :=
  ⟨(playlist_ids_unique refJSON).1 _,
    (playlist_ids_unique refJSON).2 _ _ (by decide)⟩

/-! ## Theorems: persistence of the playlist -/

/-- After `removeFromPlaylist` the storage holds the text of the playlist. -/
theorem removeFromPlaylist_storage (J : JSONBuiltins) (trackId : Nat) (s : AppState) :
    (removeFromPlaylist J trackId s).storage
      = some (J.stringify (removeFromPlaylist J trackId s).playlist) := by
  simp only [removeFromPlaylist, savePlaylistEffect]
  split <;> rfl

/-- After a confirmed `clearPlaylist` the playlist is empty and the key absent. -/
theorem clearPlaylist_confirmed (J : JSONBuiltins) (s : AppState) :
    (clearPlaylist J true s).playlist = [] ∧ (clearPlaylist J true s).storage = none := by
  simp [clearPlaylist, savePlaylistEffect]

/-- Each handler keeps storage and playlist in step. -/
theorem step_synced (J : JSONBuiltins) (s : AppState) (e : PlaylistEvent)
    (h : Synced J s) : Synced J (step J s e) := by
  cases e with
  | add t =>
    by_cases hm : ∃ item ∈ s.playlist, item.trackId = t.trackId
    · simp only [step, addToPlaylist_of_mem J t s hm]; exact h
    · simp only [step, addToPlaylist_of_not_mem J t s hm]; exact Or.inl rfl
  | remove i => exact Or.inl (removeFromPlaylist_storage J i s)
  | clear c =>
    cases c
    · simpa [step, clearPlaylist] using h
    · exact Or.inr (clearPlaylist_confirmed J s)

/-- Storage and playlist are in step after any sequence of events. -/
theorem run_synced (J : JSONBuiltins) (events : List PlaylistEvent) :
    ∀ s : AppState, Synced J s → Synced J (run J s events) := by
  induction events with
  | nil => intro s h; exact h
  | cons e es ih => intro s h; exact ih (step J s e) (step_synced J s e h)

/-- Claim C4 (counterexample): removing the last remaining track does not
remove the key. On a first visit, after `addToPlaylist` of track 1 and
`removeFromPlaylist(1)` the playlist is empty and the stored text is `[]`. -/
theorem remove_last_track_writes_empty_array :
    (run refJSON initialState [.add { trackId := 1 }, .remove 1]).playlist = [] ∧
    (run refJSON initialState [.add { trackId := 1 }, .remove 1]).storage = some "[]" := by
  have hp : (removeFromPlaylist refJSON 1
      (addToPlaylist refJSON { trackId := 1 } initialState)).playlist = [] := by decide
  refine ⟨hp, ?_⟩
  show (removeFromPlaylist refJSON 1
      (addToPlaylist refJSON { trackId := 1 } initialState)).storage = some "[]"
  rw [removeFromPlaylist_storage, hp]
  exact congrArg some refJSON.stringify_nil

/-- Claim C4 (amended): after `removeFromPlaylist` the durable record is the
serialization of the resulting playlist, also when that playlist is empty
(the text `[]` is written, the key is not removed); after a confirmed
`clearPlaylist` the playlist is empty and the key is absent; after an
`addToPlaylist` that appends, the record is the serialization of the new
playlist. Hence in every state reached from the first-visit state the record
is the serialization of the playlist whenever the playlist is non-empty, and
is absent or the text `[]` when it is empty. -/
theorem storage_after_mutation (J : JSONBuiltins) :
    (∀ (s : AppState) (trackId : Nat),
      (removeFromPlaylist J trackId s).storage
        = some (J.stringify (removeFromPlaylist J trackId s).playlist)) ∧
    (∀ (s : AppState) (trackId : Nat),
      (removeFromPlaylist J trackId s).playlist = [] →
        (removeFromPlaylist J trackId s).storage = some "[]") ∧
    (∀ s : AppState,
      (clearPlaylist J true s).playlist = [] ∧ (clearPlaylist J true s).storage = none) ∧
    (∀ (s : AppState) (t : Track),
      (¬ ∃ item ∈ s.playlist, item.trackId = t.trackId) →
        (addToPlaylist J t s).storage = some (J.stringify (s.playlist ++ [t]))) ∧
    (∀ events : List PlaylistEvent,
      ((run J initialState events).playlist ≠ [] →
        (run J initialState events).storage
          = some (J.stringify (run J initialState events).playlist)) ∧
      ((run J initialState events).playlist = [] →
        (run J initialState events).storage = none ∨
        (run J initialState events).storage = some "[]")) := by
  refine ⟨fun s i => removeFromPlaylist_storage J i s, fun s i h => ?_,
    clearPlaylist_confirmed J, fun s t hm => ?_, fun events => ?_⟩
  · rw [removeFromPlaylist_storage, h, J.stringify_nil]
  · rw [addToPlaylist_of_not_mem J t s hm]
  · have hs : Synced J (run J initialState events) :=
      run_synced J events initialState (Or.inr ⟨rfl, rfl⟩)
    refine ⟨fun hne => ?_, fun he => ?_⟩
    · rcases hs with h | ⟨h, _⟩
      · exact h
      · exact absurd h hne
    · rcases hs with h | ⟨_, h⟩
      · right; rw [h, he, J.stringify_nil]
      · left; exact h

/-- Claim C4 (amended) at a concrete run: add 1, add 2, remove 1, remove 2. -/
theorem storage_after_mutation_witness :
    (run refJSON initialState
        [.add { trackId := 1 }, .add { trackId := 2 }, .remove 1]).storage
      = some (refJSON.stringify [{ trackId := 2 }]) ∧
    (run refJSON initialState
        [.add { trackId := 1 }, .add { trackId := 2 }, .remove 1, .remove 2]).storage
      = some "[]" ∧
    (addToPlaylist refJSON { trackId := 5 } initialState).storage
      = some (refJSON.stringify [{ trackId := 5 }]) := by
  have h := storage_after_mutation refJSON
  refine ⟨?_, ?_, ?_⟩
  · exact ((h.2.2.2.2 [.add { trackId := 1 }, .add { trackId := 2 }, .remove 1]).1
      (by decide))
  · exact h.2.1 _ 2 (by decide)
  · exact h.2.2.2.1 initialState { trackId := 5 } (by decide)

/-- Claim C5 (counterexample): with the stored text `\x7b`, which is not JSON,
the load effect does not complete: `JSON.parse` throws and nothing catches
it. -/
theorem load_corrupt_storage_raises :
    loadPlaylistEffect refJSON (some "\x7b") = LoadOutcome.raised := by
  decide

/-- The load effect reads a written playlist back. -/
theorem loadPlaylistEffect_stringify (J : JSONBuiltins) (p : List Track) :
    loadPlaylistEffect J (some (J.stringify p)) = .loaded (.playlist p) := by
  simp [loadPlaylistEffect, J.stringify_ne_empty, J.parse_stringify]

/-- Claim C5 (amended): when the key is absent or holds the empty string the
load effect completes and the playlist is the empty list; when the key holds
the serialization of a playlist the effect completes with that playlist; and
the effect raises exactly when the stored text is non-empty and `JSON.parse`
throws on it (the `SyntaxError` is not caught). -/
theorem loadPlaylistEffect_spec (J : JSONBuiltins) :
    loadPlaylistEffect J none = .loaded (.playlist []) ∧
    loadPlaylistEffect J (some "") = .loaded (.playlist []) ∧
    (∀ p : List Track,
      loadPlaylistEffect J (some (J.stringify p)) = .loaded (.playlist p)) ∧
    (∀ text : String,
      loadPlaylistEffect J (some text) = .raised ↔ text ≠ "" ∧ J.parse text = none) := by
  refine ⟨rfl, by simp [loadPlaylistEffect], loadPlaylistEffect_stringify J, fun text => ?_⟩
  by_cases h : text = ""
  · simp [loadPlaylistEffect, h]
  · cases hp : J.parse text <;> simp [loadPlaylistEffect, h, hp]

/-- Claim C5 (amended) at concrete storage contents: a stored playlist with
the tracks 4 and 2 is read back, and the text of a lone opening brace makes
the effect raise. -/
theorem loadPlaylistEffect_spec_witness :
    loadPlaylistEffect refJSON (some (refJSON.stringify [{ trackId := 4 }, { trackId := 2 }]))
      = .loaded (.playlist [{ trackId := 4 }, { trackId := 2 }]) ∧
    loadPlaylistEffect refJSON (some "\x7b") = .raised :=
  ⟨(loadPlaylistEffect_spec refJSON).2.2.1 _,
    ((loadPlaylistEffect_spec refJSON).2.2.2 "\x7b").mpr (by decide)⟩

/-- Claim C6: the load effect applied to the storage left behind by
persisting a playlist yields that playlist, hence the same `trackId`s in the
same order. This holds for the save effect on every non-empty playlist,
whatever was stored before; for the state reached from the first-visit state
by any sequence of playlist events (the playlist may be empty); after
`removeFromPlaylist` from any state, also when it removes the last track and
the playlist becomes `[]`; and after a confirmed `clearPlaylist`, where the
load effect yields `[]`. -/
theorem load_after_persist (J : JSONBuiltins) :
    (∀ (p : List Track) (before : Option String), p ≠ [] →
      loadPlaylistEffect J (savePlaylistEffect J p before) = .loaded (.playlist p)) ∧
    (∀ events : List PlaylistEvent,
      loadPlaylistEffect J (run J initialState events).storage
        = .loaded (.playlist (run J initialState events).playlist)) ∧
    (∀ (s : AppState) (trackId : Nat),
      loadPlaylistEffect J (removeFromPlaylist J trackId s).storage
        = .loaded (.playlist (removeFromPlaylist J trackId s).playlist)) ∧
    (∀ s : AppState,
      (clearPlaylist J true s).playlist = [] ∧
      loadPlaylistEffect J (clearPlaylist J true s).storage = .loaded (.playlist [])) := by
  refine ⟨fun p before hp => ?_, fun events => ?_, fun s i => ?_, fun s => ?_⟩
  · have : p.length > 0 := List.length_pos.mpr hp
    rw [savePlaylistEffect, if_pos this, loadPlaylistEffect_stringify]
  · rcases run_synced J events initialState (Or.inr ⟨rfl, rfl⟩) with h | ⟨hp, hs⟩
    · rw [h, loadPlaylistEffect_stringify]
    · rw [hs, hp]; rfl
  · rw [removeFromPlaylist_storage, loadPlaylistEffect_stringify]
  · refine ⟨(clearPlaylist_confirmed J s).1, ?_⟩
    rw [(clearPlaylist_confirmed J s).2]; rfl

/-- Claim C6 at a concrete run: tracks 1 and 2 are added; then both are
removed. -/
theorem load_after_persist_witness :
    loadPlaylistEffect refJSON
        (run refJSON initialState [.add { trackId := 1 }, .add { trackId := 2 }]).storage
      = .loaded (.playlist [{ trackId := 1 }, { trackId := 2 }]) ∧
    loadPlaylistEffect refJSON
        (run refJSON initialState
          [.add { trackId := 1 }, .add { trackId := 2 }, .remove 1, .remove 2]).storage
      = .loaded (.playlist []) ∧
    loadPlaylistEffect refJSON (savePlaylistEffect refJSON [{ trackId := 9 }] (some "old"))
      = .loaded (.playlist [{ trackId := 9 }]) :=
  ⟨(load_after_persist refJSON).2.1 _, (load_after_persist refJSON).2.1 _,
    (load_after_persist refJSON).1 [{ trackId := 9 }] (some "old") (by decide)⟩

/-! ## Theorems: `Array.prototype.sort` as used by `sortResults` -/

section ArraySort

variable {α β : Type} [LinearOrderedAddCommGroup β]

/-- A comparator that is the difference of keys orders by the keys. -/
theorem arraySort_sub_eq (key : α → β) (xs : List α) :
    arraySort (fun a b => key a - key b) xs
      = xs.insertionSort (fun a b => key a ≤ key b) := by
  unfold arraySort
  induction xs with
  | nil => rfl
  | cons x xs ih =>
    simp only [List.insertionSort]
    rw [ih]
    generalize List.insertionSort (fun a b => key a ≤ key b) xs = ys
    induction ys with
    | nil => rfl
    | cons y ys ihy =>
      simp only [List.orderedInsert, sub_nonpos]

/-- Sorting with a difference of keys: the result is a permutation, the keys
ascend, a pair of elements whose keys are already in order keeps its order,
and sorting again changes nothing. -/
theorem arraySort_sub_spec (key : α → β) (xs : List α) :
    (arraySort (fun a b => key a - key b) xs).Perm xs ∧
    (arraySort (fun a b => key a - key b) xs).Pairwise (fun a b => key a ≤ key b) ∧
    (∀ a b, key a ≤ key b → [a, b].Sublist xs →
      [a, b].Sublist (arraySort (fun a b => key a - key b) xs)) ∧
    arraySort (fun a b => key a - key b) (arraySort (fun a b => key a - key b) xs)
      = arraySort (fun a b => key a - key b) xs := by
  haveI : IsTotal α (fun a b => key a ≤ key b) := ⟨fun a b => le_total (key a) (key b)⟩
  haveI : IsTrans α (fun a b => key a ≤ key b) := ⟨fun _ _ _ h1 h2 => le_trans h1 h2⟩
  have hs := List.sorted_insertionSort (fun a b : α => key a ≤ key b) xs
  rw [arraySort_sub_eq, arraySort_sub_eq]
  exact ⟨List.perm_insertionSort _ xs, hs,
    fun a b hab h => List.pair_sublist_insertionSort hab h, hs.insertionSort_eq⟩

end ArraySort

section InsertionOrder

variable {α : Type} (r : α → α → Prop) [DecidableRel r]

/-- Insertion does the same for two relations that agree on the element
inserted and the elements of the list. -/
theorem orderedInsert_congr (q : α → α → Prop) [DecidableRel q] (a : α) (l : List α)
    (h : ∀ b ∈ l, r a b ↔ q a b) : l.orderedInsert r a = l.orderedInsert q a := by
  induction l with
  | nil => rfl
  | cons b l ih =>
    have hb : r a b ↔ q a b := h b (List.mem_cons_self _ _)
    have hl : ∀ c ∈ l, r a c ↔ q a c := fun c hc => h c (List.mem_cons_of_mem _ hc)
    by_cases hab : r a b
    · simp [List.orderedInsert, hab, hb.mp hab]
    · have hq : ¬ q a b := fun hq => hab (hb.mpr hq)
      simp [List.orderedInsert, hab, hq, ih hl]

/-- Insertion sort does the same for two relations that agree on the elements
of the list. -/
theorem insertionSort_congr (q : α → α → Prop) [DecidableRel q] (l : List α)
    (h : ∀ a ∈ l, ∀ b ∈ l, r a b ↔ q a b) : l.insertionSort r = l.insertionSort q := by
  induction l with
  | nil => rfl
  | cons a l ih =>
    have hl : ∀ x ∈ l, ∀ y ∈ l, r x y ↔ q x y := fun x hx y hy =>
      h x (List.mem_cons_of_mem _ hx) y (List.mem_cons_of_mem _ hy)
    simp only [List.insertionSort]
    rw [ih hl]
    apply orderedInsert_congr
    intro b hb
    exact h a (List.mem_cons_self _ _) b
      (List.mem_cons_of_mem _ ((List.mem_insertionSort q).mp hb))

/-- The first element after an insertion is the element inserted or the
first element of the list. -/
theorem head?_orderedInsert (a : α) (l : List α) :
    ∀ y ∈ (l.orderedInsert r a).head?, y = a ∨ y ∈ l.head? := by
  intro y hy
  cases l with
  | nil => left; simpa [List.orderedInsert] using hy.symm
  | cons b l =>
    by_cases hab : r a b
    · left; simpa [List.orderedInsert, hab] using hy.symm
    · right; simpa [List.orderedInsert, hab] using hy

/-- Insertion into a list whose neighbours are in order keeps neighbours in
order, when any two elements are in order one way or the other. -/
theorem orderedInsert_chain' (htot : ∀ a b, r a b ∨ r b a) (a : α) (l : List α)
    (hl : l.Chain' r) : (l.orderedInsert r a).Chain' r := by
  induction l with
  | nil => simp [List.orderedInsert]
  | cons b l ih =>
    by_cases hab : r a b
    · simp only [List.orderedInsert, hab, if_true]
      exact List.Chain'.cons hab hl
    · simp only [List.orderedInsert, hab, if_false]
      rw [List.chain'_cons'] at hl ⊢
      refine ⟨fun y hy => ?_, ih hl.2⟩
      rcases head?_orderedInsert r a l y hy with h | h
      · subst h
        exact (htot y b).resolve_left hab
      · exact hl.1 y h

/-- The neighbours of an insertion-sorted list are in order, when any two
elements are in order one way or the other. -/
theorem insertionSort_chain' (htot : ∀ a b, r a b ∨ r b a) (l : List α) :
    (l.insertionSort r).Chain' r := by
  induction l with
  | nil => simp
  | cons a l ih => exact orderedInsert_chain' r htot a _ ih

/-- Insertion sort leaves a list whose neighbours are in order as it is. -/
theorem insertionSort_eq_of_chain' (l : List α) (h : l.Chain' r) :
    l.insertionSort r = l := by
  induction l with
  | nil => rfl
  | cons a l ih =>
    rw [List.chain'_cons'] at h
    simp only [List.insertionSort]
    rw [ih h.2]
    cases l with
    | nil => rfl
    | cons b l =>
      have hab : r a b := h.1 b (by simp)
      simp [List.orderedInsert, hab]

end InsertionOrder

/-- Sorting twice is sorting once, for every comparator under which any two
elements compare `≤ 0` one way or the other; the comparator need not be
consistent. -/
theorem arraySort_idempotent_of_total {α β : Type} [Zero β] [LE β]
    [DecidableRel (fun x y : β => x ≤ y)] (compareFn : α → α → β)
    (htot : ∀ a b, compareFn a b ≤ 0 ∨ compareFn b a ≤ 0) (xs : List α) :
    arraySort compareFn (arraySort compareFn xs) = arraySort compareFn xs := by
  unfold arraySort
  exact insertionSort_eq_of_chain' _ _ (insertionSort_chain' _ htot xs)

/-! ## Theorems: stable sorts -/

section StableSort

variable {α β : Type} [LinearOrder β] (key : α → β)

/-- In a list sorted by key, the first element has the least key. -/
theorem key_head_le_of_mem_filter (z : α) (zs : List α)
    (hz : (z :: zs).Pairwise (fun a b => key a ≤ key b)) (k : β)
    (hne : (z :: zs).filter (fun a => decide (key a = k)) ≠ []) : key z ≤ k := by
  obtain ⟨x, hx⟩ := List.exists_mem_of_ne_nil _ hne
  rw [List.mem_filter] at hx
  have hk : key x = k := by simpa using hx.2
  rcases List.mem_cons.mp hx.1 with h | h
  · rw [← hk, h]
  · rw [← hk]; exact List.rel_of_pairwise_cons hz h

/-- Two lists sorted by key that hold the same elements of every key, in the
same order, are equal. -/
theorem eq_of_sorted_of_filter_eq : ∀ (ys zs : List α),
    ys.Pairwise (fun a b => key a ≤ key b) → zs.Pairwise (fun a b => key a ≤ key b) →
    (∀ k, ys.filter (fun a => decide (key a = k)) = zs.filter (fun a => decide (key a = k))) →
    ys = zs
  | [], [], _, _, _ => rfl
  | [], z :: zs, _, _, h => by
    have := h (key z)
    simp at this
  | y :: ys, [], _, _, h => by
    have := h (key y)
    simp at this
  | y :: ys, z :: zs, hy, hz, h => by
    have h1 : key z ≤ key y := by
      apply key_head_le_of_mem_filter key z zs hz
      rw [← h (key y)]
      simp
    have h2 : key y ≤ key z := by
      apply key_head_le_of_mem_filter key y ys hy
      rw [h (key z)]
      simp
    have hk : key z = key y := le_antisymm h1 h2
    have h0 := h (key y)
    simp only [List.filter_cons, hk, decide_True, if_true] at h0
    have hyz : y = z := (List.cons.inj h0).1
    have htail : ∀ k, ys.filter (fun a => decide (key a = k))
        = zs.filter (fun a => decide (key a = k)) := by
      intro k
      by_cases hkk : key y = k
      · subst hkk
        exact (List.cons.inj h0).2
      · have hkz : ¬ key z = k := by rw [hk]; exact hkk
        have := h k
        simpa [List.filter_cons, hkk, hkz] using this
    rw [hyz, eq_of_sorted_of_filter_eq ys zs hy.tail hz.tail htail]

/-- A rearrangement that keeps every key-sorted sublist holds the elements of
each key in their original order. -/
theorem filter_eq_of_stable (xs ys : List α) (hp : ys.Perm xs)
    (hst : ∀ c : List α, c.Pairwise (fun a b => key a ≤ key b) → c.Sublist xs → c.Sublist ys)
    (k : β) :
    ys.filter (fun a => decide (key a = k)) = xs.filter (fun a => decide (key a = k)) := by
  have hc : (xs.filter (fun a => decide (key a = k))).Pairwise (fun a b => key a ≤ key b) := by
    rw [List.pairwise_iff_forall_sublist]
    intro a b hab
    have ha : a ∈ xs.filter (fun a => decide (key a = k)) := hab.subset (by simp)
    have hb : b ∈ xs.filter (fun a => decide (key a = k)) := hab.subset (by simp)
    rw [List.mem_filter] at ha hb
    have ha' : key a = k := by simpa using ha.2
    have hb' : key b = k := by simpa using hb.2
    rw [ha', hb']
  have hsub := (hst _ hc (List.filter_sublist _)).filter (fun a => decide (key a = k))
  rw [List.filter_filter] at hsub
  simp only [Bool.and_self] at hsub
  exact (hsub.eq_of_length ((hp.filter _).length_eq).symm).symm

end StableSort

/-- The stable merge sort and the model of `Array.prototype.sort` agree on
every comparator that is a difference of keys. -/
theorem mergeArraySort_sub_eq {α β : Type} [LinearOrderedAddCommGroup β] (key : α → β)
    (xs : List α) :
    mergeArraySort (fun a b => key a - key b) xs
      = arraySort (fun a b => key a - key b) xs := by
  have htrans : ∀ a b c : α, decide (key a - key b ≤ 0) = true →
      decide (key b - key c ≤ 0) = true → decide (key a - key c ≤ 0) = true := by
    intro a b c h1 h2
    simp only [decide_eq_true_eq, sub_nonpos] at h1 h2 ⊢
    exact le_trans h1 h2
  have htotal : ∀ a b : α,
      (decide (key a - key b ≤ 0) || decide (key b - key a ≤ 0)) = true := by
    intro a b
    simp only [Bool.or_eq_true, decide_eq_true_eq, sub_nonpos]
    exact le_total _ _
  have hspec := arraySort_sub_spec key xs
  apply eq_of_sorted_of_filter_eq key
  · have h := List.sorted_mergeSort htrans htotal xs
    exact h.imp (fun hab => by simpa using hab)
  · exact hspec.2.1
  · intro k
    have hm : (mergeArraySort (fun a b => key a - key b) xs).filter
        (fun a => decide (key a = k)) = xs.filter (fun a => decide (key a = k)) := by
      apply filter_eq_of_stable key xs _ (List.mergeSort_perm xs _)
      intro c hc hsub
      exact List.sublist_mergeSort htrans htotal (hc.imp (fun hab => by simpa using hab)) hsub
    have hi : (arraySort (fun a b => key a - key b) xs).filter
        (fun a => decide (key a = k)) = xs.filter (fun a => decide (key a = k)) := by
      apply filter_eq_of_stable key xs _ hspec.1
      intro c hc hsub
      rw [arraySort_sub_eq]
      exact List.sublist_insertionSort hc hsub
    rw [hm, hi]

/-- Merging does the same for two tests that agree between the elements of
the two lists. -/
theorem merge_congr {α : Type} (le le' : α → α → Bool) :
    ∀ (l r : List α), (∀ a ∈ l, ∀ b ∈ r, le a b = le' a b) →
      List.merge l r le = List.merge l r le'
  | [], r, _ => by simp
  | a :: l, [], _ => by simp
  | a :: l, b :: r, h => by
    have hab : le a b = le' a b := h a (List.mem_cons_self _ _) b (List.mem_cons_self _ _)
    have h1 : ∀ x ∈ l, ∀ y ∈ b :: r, le x y = le' x y := fun x hx y hy =>
      h x (List.mem_cons_of_mem _ hx) y hy
    have h2 : ∀ x ∈ a :: l, ∀ y ∈ r, le x y = le' x y := fun x hx y hy =>
      h x hx y (List.mem_cons_of_mem _ hy)
    rw [List.merge, List.merge, hab, merge_congr le le' l (b :: r) h1,
      merge_congr le le' (a :: l) r h2]

/-- Merge sort does the same for two tests that agree on the elements of the
list. -/
theorem mergeSort_congr {α : Type} (le le' : α → α → Bool) :
    ∀ (n : ℕ) (l : List α), l.length = n → (∀ a ∈ l, ∀ b ∈ l, le a b = le' a b) →
      l.mergeSort le = l.mergeSort le' := by
  intro n
  induction n using Nat.strong_induction_on with
  | _ n ih =>
    intro l hn h
    match l, hn, h with
    | [], _, _ => simp [List.mergeSort]
    | [a], _, _ => simp [List.mergeSort]
    | a :: b :: xs, hn, h =>
      rw [List.mergeSort, List.mergeSort]
      have hl1 : ∀ x ∈ (List.splitInTwo ⟨a :: b :: xs, rfl⟩).1.1, x ∈ a :: b :: xs := by
        intro x hx
        rw [List.splitInTwo_fst] at hx
        exact List.mem_of_mem_take hx
      have hl2 : ∀ x ∈ (List.splitInTwo ⟨a :: b :: xs, rfl⟩).2.1, x ∈ a :: b :: xs := by
        intro x hx
        rw [List.splitInTwo_snd] at hx
        exact List.mem_of_mem_drop hx
      have hlen1 : (List.splitInTwo ⟨a :: b :: xs, rfl⟩).1.1.length < n := by
        have := (List.splitInTwo ⟨a :: b :: xs, rfl⟩).1.2
        simp only [List.length_cons] at this hn
        omega
      have hlen2 : (List.splitInTwo ⟨a :: b :: xs, rfl⟩).2.1.length < n := by
        have := (List.splitInTwo ⟨a :: b :: xs, rfl⟩).2.2
        simp only [List.length_cons] at this hn
        omega
      rw [ih _ hlen1 _ rfl (fun x hx y hy => h x (hl1 x hx) y (hl1 y hy)),
        ih _ hlen2 _ rfl (fun x hx y hy => h x (hl2 x hx) y (hl2 y hy))]
      apply merge_congr
      intro x hx y hy
      exact h x (hl1 x (List.mem_mergeSort.mp hx)) y (hl2 y (List.mem_mergeSort.mp hy))

/-! ## Theorems: `sortResults` -/

/-- The branch of `sortResults` taken for the key `price`. -/
theorem sortResults_price_results (s : AppState) :
    (sortResults "price" s).searchResults
      = arraySort (fun a b => sortPrice a - sortPrice b) s.searchResults := by
  simp [sortResults, sortPrice]

/-- The branch of `sortResults` taken for the key `releaseDate`. -/
theorem sortResults_releaseDate_results (s : AppState) :
    (sortResults "releaseDate" s).searchResults
      = arraySort
          (fun a b : Track =>
            nanToZero (jsSub (dateValue b.releaseDate) (dateValue a.releaseDate)))
          s.searchResults := by
  simp [sortResults]

/-- The branch of `sortResults` taken for the default key: no sort. -/
theorem sortResults_default_results (s : AppState) :
    (sortResults "" s).searchResults = s.searchResults := by
  simp [sortResults]

/-- What `sortResults('price')` computes: a permutation of the result list in
which `trackPrice || 0` ascends and in which two tracks whose keys were
already in order, equal keys included, keep their relative order. -/
theorem sortResults_price_spec (s : AppState) :
    (sortResults "price" s).sortBy = "price" ∧
    (sortResults "price" s).searchResults.Perm s.searchResults ∧
    (sortResults "price" s).searchResults.Pairwise (fun a b => sortPrice a ≤ sortPrice b) ∧
    (∀ a b, sortPrice a ≤ sortPrice b → [a, b].Sublist s.searchResults →
      [a, b].Sublist (sortResults "price" s).searchResults) := by
  have h := arraySort_sub_spec sortPrice s.searchResults
  rw [sortResults_price_results]
  exact ⟨rfl, h.1, h.2.1, h.2.2.1⟩

/-- Claim C7 (the code at the failing input): for the result list holding
track 1 with `trackPrice` 1.99 and track 2 with no `trackPrice` and
`collectionPrice` 9.99, `sortResults('price')` puts track 2 first, because it
compares `trackPrice || 0` and never reads `collectionPrice`. The effective
prices of the result, 9.99 then 1.99, do not ascend, and neither do the
prices the table displays for it. On the example of the specification, where
every track has a `trackPrice`, the result is `[2, 3, 1]`. -/
theorem sortResults_price_ignores_collectionPrice :
    (sortResults "price"
        { initialState with
          searchResults :=
            [{ trackId := 1, trackPrice := some 1.99 },
             { trackId := 2, collectionPrice := some 9.99 }] }).searchResults
      = [{ trackId := 2, collectionPrice := some 9.99 },
         { trackId := 1, trackPrice := some 1.99 }] ∧
    specEffectivePrice { trackId := 2, collectionPrice := some 9.99 } = 9.99 ∧
    specEffectivePrice { trackId := 1, trackPrice := some 1.99 } = 1.99 ∧
    displayedPrice { trackId := 2, collectionPrice := some 9.99 } = 9.99 ∧
    displayedPrice { trackId := 1, trackPrice := some 1.99 } = 1.99 ∧
    (sortResults "price"
        { initialState with
          searchResults :=
            [{ trackId := 1, trackPrice := some 1.99 },
             { trackId := 2, trackPrice := some 0.99 },
             { trackId := 3, trackPrice := some 0.99 }] }).searchResults.map Track.trackId
      = [2, 3, 1] := by
  refine ⟨?_, ?_, ?_, ?_, ?_, ?_⟩
  · rw [sortResults_price_results]
    norm_num [arraySort, sortPrice, jsOr, initialState]
  · simp [specEffectivePrice]
  · simp [specEffectivePrice]
  · norm_num [displayedPrice, jsOr]
  · norm_num [displayedPrice, jsOr]
  · rw [sortResults_price_results]
    norm_num [arraySort, sortPrice, jsOr, initialState]

/-- The comparator of the `releaseDate` sort on two tracks with a date or
`null`: the difference of the time values. -/
theorem dateCompare_le_iff (a b : Track) (ha : a.releaseDate ≠ ReleaseDate.invalid)
    (hb : b.releaseDate ≠ ReleaseDate.invalid) :
    nanToZero (jsSub (dateValue b.releaseDate) (dateValue a.releaseDate)) ≤ 0 ↔
      -dateKey a.releaseDate - -dateKey b.releaseDate ≤ 0 := by
  cases hra : a.releaseDate <;> cases hrb : b.releaseDate <;>
    simp_all [dateKey, dateValue, jsSub, nanToZero]

/-- Under the comparator of the `releaseDate` sort any two tracks compare
`≤ 0` one way or the other, also when a date is invalid (`NaN` counts as 0). -/
theorem dateCompare_total (a b : Track) :
    nanToZero (jsSub (dateValue b.releaseDate) (dateValue a.releaseDate)) ≤ 0 ∨
    nanToZero (jsSub (dateValue a.releaseDate) (dateValue b.releaseDate)) ≤ 0 := by
  cases hra : dateValue a.releaseDate <;> cases hrb : dateValue b.releaseDate <;>
    simp [jsSub, nanToZero]
  omega

/-- On a list without invalid dates the `releaseDate` sort is the sort by the
negated time value. -/
theorem sortResults_releaseDate_key (xs : List Track)
    (h : ∀ t ∈ xs, t.releaseDate ≠ ReleaseDate.invalid) :
    arraySort
        (fun a b : Track => nanToZero (jsSub (dateValue b.releaseDate) (dateValue a.releaseDate)))
        xs
      = arraySort (fun a b : Track => -dateKey a.releaseDate - -dateKey b.releaseDate)
          xs := by
  unfold arraySort
  apply insertionSort_congr
  intro a ha b hb
  exact dateCompare_le_iff a b (h a ha) (h b hb)

/-- The `releaseDate` branch of `sortResults` is the branch on the model of
`Array.prototype.sort`. -/
theorem sortByReleaseDateWith_arraySort (s : AppState) :
    sortByReleaseDateWith arraySort s = sortResults "releaseDate" s := by
  simp [sortByReleaseDateWith, sortResults]

/-- On a list without invalid dates the stable merge sort yields the result
of the model of `Array.prototype.sort`. -/
theorem mergeArraySort_releaseDate_eq (xs : List Track)
    (h : ∀ t ∈ xs, t.releaseDate ≠ ReleaseDate.invalid) :
    mergeArraySort
        (fun a b : Track => nanToZero (jsSub (dateValue b.releaseDate) (dateValue a.releaseDate)))
        xs
      = arraySort
          (fun a b : Track =>
            nanToZero (jsSub (dateValue b.releaseDate) (dateValue a.releaseDate)))
          xs := by
  rw [sortResults_releaseDate_key xs h, ← mergeArraySort_sub_eq]
  unfold mergeArraySort
  apply mergeSort_congr _ _ xs.length xs rfl
  intro a ha b hb
  exact decide_eq_decide.mpr (dateCompare_le_iff a b (h a ha) (h b hb))

/-- With insertion order in place of the platform's sort, sorting by
`releaseDate` twice is sorting once, also when dates are invalid. -/
theorem sortResults_releaseDate_idempotent_insertion (s : AppState) :
    (sortResults "releaseDate" (sortResults "releaseDate" s)).searchResults
      = (sortResults "releaseDate" s).searchResults := by
  rw [sortResults_releaseDate_results, sortResults_releaseDate_results]
  exact arraySort_idempotent_of_total _ dateCompare_total s.searchResults

/-- Claim C8 (counterexample): a track whose `releaseDate` is `null` is placed
before a track dated before 1970. For the result list holding track 1 with
`releaseDate` `null` and track 2 dated 1969-12-31 (time value -86400000),
`sortResults('releaseDate')` yields `[1, 2]`. -/
theorem sortResults_releaseDate_null_before_1969 :
    (sortResults "releaseDate"
        { initialState with
          searchResults :=
            [{ trackId := 1 },
             { trackId := 2, releaseDate := .date (-86400000) }] }).searchResults
      = [{ trackId := 1 }, { trackId := 2, releaseDate := .date (-86400000) }] := by
  rw [sortResults_releaseDate_results]
  decide

/-- With a missing `releaseDate` the comparator returns `NaN` against every
other track and the result is not ordered by date: for track 1 without the
property, track 2 dated 2020-01-01 and track 3 dated 2023-01-01 the model
yields `[1, 3, 2]`. -/
theorem sortResults_releaseDate_missing_example :
    (sortResults "releaseDate"
        { initialState with
          searchResults :=
            [{ trackId := 1, releaseDate := .invalid },
             { trackId := 2, releaseDate := .date 1577836800000 },
             { trackId := 3, releaseDate := .date 1672531200000 }] }).searchResults.map
        Track.trackId
      = [1, 3, 2] := by
  rw [sortResults_releaseDate_results]
  decide

/-- Claim C8 (amended): `sortResults('releaseDate')` yields a permutation of
the result list. When every `releaseDate` of the list is `null` or a valid
date, the result is ordered by release date descending, where a `null`
`releaseDate` counts as the epoch (time value 0, 1970-01-01): a track dated
after the epoch never follows a track whose date is `null`, a track dated
before the epoch never precedes one, and two tracks that were already in
this order keep their relative order. E.g. the tracks 1 (`null`),
2 (2020-01-01) and 3 (2023-01-01) become `[3, 2, 1]`. (When a `releaseDate`
is missing or not a date the comparator returns `NaN` and no order by date is
stated.) -/
theorem sortResults_releaseDate_spec (s : AppState) :
    (sortResults "releaseDate" s).searchResults.Perm s.searchResults ∧
    ((∀ t ∈ s.searchResults, t.releaseDate ≠ ReleaseDate.invalid) →
      (sortResults "releaseDate" s).searchResults.Pairwise
        (fun a b => dateKey b.releaseDate ≤ dateKey a.releaseDate) ∧
      (sortResults "releaseDate" s).searchResults.Pairwise
        (fun a b => a.releaseDate = .null → ∀ d, b.releaseDate = .date d → d ≤ 0) ∧
      (sortResults "releaseDate" s).searchResults.Pairwise
        (fun a b => b.releaseDate = .null → ∀ d, a.releaseDate = .date d → 0 ≤ d) ∧
      (∀ a b, dateKey b.releaseDate ≤ dateKey a.releaseDate →
        [a, b].Sublist s.searchResults →
        [a, b].Sublist (sortResults "releaseDate" s).searchResults)) ∧
    (sortResults "releaseDate"
        { initialState with
          searchResults :=
            [{ trackId := 1 },
             { trackId := 2, releaseDate := .date 1577836800000 },
             { trackId := 3, releaseDate := .date 1672531200000 }] }).searchResults.map
        Track.trackId
      = [3, 2, 1] := by
  refine ⟨?_, fun hvalid => ?_, ?_⟩
  · rw [sortResults_releaseDate_results]
    exact List.perm_insertionSort _ _
  · have h := arraySort_sub_spec (fun t : Track => -dateKey t.releaseDate) s.searchResults
    rw [sortResults_releaseDate_results, sortResults_releaseDate_key _ hvalid]
    have hsorted : (arraySort
        (fun a b : Track => -dateKey a.releaseDate - -dateKey b.releaseDate)
        s.searchResults).Pairwise
          (fun a b => dateKey b.releaseDate ≤ dateKey a.releaseDate) :=
      h.2.1.imp (fun hab => neg_le_neg_iff.mp hab)
    refine ⟨hsorted, hsorted.imp ?_, hsorted.imp ?_, fun a b hab hsub => ?_⟩
    · intro a b hab ha d hb
      simpa [dateKey, dateValue, nanToZero, ha, hb] using hab
    · intro a b hab hb d ha
      simpa [dateKey, dateValue, nanToZero, ha, hb] using hab
    · exact h.2.2.1 a b (neg_le_neg hab) hsub
  · rw [sortResults_releaseDate_results]
    decide

/-- Claim C8 (amended) at a concrete list, the dated track 2 followed by
track 1 whose date is `null`: no date is invalid, the result is ordered by
date descending and track 2 still precedes track 1. -/
theorem sortResults_releaseDate_spec_witness :
    (sortResults "releaseDate"
        { initialState with
          searchResults :=
            [{ trackId := 2, releaseDate := .date 1577836800000 },
             { trackId := 1 }] }).searchResults.Pairwise
      (fun a b => dateKey b.releaseDate ≤ dateKey a.releaseDate) ∧
    [({ trackId := 2, releaseDate := .date 1577836800000 } : Track), { trackId := 1 }].Sublist
      (sortResults "releaseDate"
        { initialState with
          searchResults :=
            [{ trackId := 2, releaseDate := .date 1577836800000 },
             { trackId := 1 }] }).searchResults :=
  ⟨((sortResults_releaseDate_spec
      { initialState with
        searchResults :=
          [{ trackId := 2, releaseDate := .date 1577836800000 },
           { trackId := 1 }] }).2.1 (by decide)).1,
    ((sortResults_releaseDate_spec
      { initialState with
        searchResults :=
          [{ trackId := 2, releaseDate := .date 1577836800000 },
           { trackId := 1 }] }).2.1 (by decide)).2.2.2
      { trackId := 2, releaseDate := .date 1577836800000 } { trackId := 1 }
      (by decide) (List.Sublist.refl _)⟩

/-- Claim C9 (counterexample): after the fetch of track 1 (price 1.99) and
track 2 (price 0.99) in this order, selecting `price` and then the default
key displays `[2, 1]`, not the fetch order `[1, 2]`. -/
theorem sortResults_default_keeps_price_order :
    (sortResults "" (sortResults "price"
        (handleSearchResponse
          [{ trackId := 1, trackPrice := some 1.99 },
           { trackId := 2, trackPrice := some 0.99 }] initialState))).searchResults.map
        Track.trackId
      = [2, 1] := by
  rw [sortResults_default_results, sortResults_price_results]
  norm_num [arraySort, sortPrice, jsOr, handleSearchResponse, initialState]

/-- Claim C9 (amended): selecting the default sort key leaves the displayed
results in the order they are in: it displays the fetch order when no other
key was selected since the fetch, and the order produced by the last sort
otherwise (the fetch order is not kept anywhere). -/
theorem sortResults_default_spec (s : AppState) (fetched : List Track) (key : String) :
    (sortResults "" s).searchResults = s.searchResults ∧
    (sortResults "" s).sortBy = "" ∧
    (sortResults "" (handleSearchResponse fetched s)).searchResults = fetched ∧
    (sortResults "" (sortResults key s)).searchResults
      = (sortResults key s).searchResults := by
  refine ⟨sortResults_default_results s, rfl, ?_, sortResults_default_results _⟩
  rw [sortResults_default_results]
  rfl

/-- Claim C10 (counterexample): with a missing `releaseDate` sorting twice
need not be sorting once. On a platform that sorts with the stable merge
sort, the result list of the tracks 1, 2, 3 (dated 2020-01-01), 4 (dated
2023-01-01), 5 (no `releaseDate`) and 6 (dated 2023-01-01) is sorted by
`releaseDate` to `[4, 1, 2, 3, 5, 6]`, and sorting that result again gives
`[4, 6, 1, 2, 3, 5]`: the comparator returns `NaN` against track 5, so it is
not a consistent comparator and the order is the platform's choice. -/
theorem sortResults_releaseDate_merge_not_idempotent :
    (sortByReleaseDateWith mergeArraySort
        { initialState with
          searchResults :=
            [{ trackId := 1, releaseDate := .date 1577836800000 },
             { trackId := 2, releaseDate := .date 1577836800000 },
             { trackId := 3, releaseDate := .date 1577836800000 },
             { trackId := 4, releaseDate := .date 1672531200000 },
             { trackId := 5, releaseDate := .invalid },
             { trackId := 6, releaseDate := .date 1672531200000 }] }).searchResults.map
        Track.trackId = [4, 1, 2, 3, 5, 6] ∧
    (sortByReleaseDateWith mergeArraySort
        (sortByReleaseDateWith mergeArraySort
          { initialState with
            searchResults :=
              [{ trackId := 1, releaseDate := .date 1577836800000 },
               { trackId := 2, releaseDate := .date 1577836800000 },
               { trackId := 3, releaseDate := .date 1577836800000 },
               { trackId := 4, releaseDate := .date 1672531200000 },
               { trackId := 5, releaseDate := .invalid },
               { trackId := 6, releaseDate := .date 1672531200000 }] })).searchResults.map
        Track.trackId = [4, 6, 1, 2, 3, 5] := by
  constructor <;>
    simp [sortByReleaseDateWith, mergeArraySort, initialState, List.mergeSort,
      List.splitInTwo, List.merge, dateValue, jsSub, nanToZero]

/-- Claim C10 (amended): sorting is idempotent for the key `price` on every
result list, and for the key `releaseDate` on every result list in which each
`releaseDate` is `null` or a valid date: applying `sortResults` with the same
key to the already sorted results yields the same list as the first
application. On such a list the comparator is consistent, the stable merge
sort yields the same result as the model of `Array.prototype.sort`, and it is
idempotent as well. (With a missing or unparseable `releaseDate` the
comparator returns `NaN` and nothing is stated.) -/
theorem sortResults_idempotent (s : AppState) :
    (sortResults "price" (sortResults "price" s)).searchResults
      = (sortResults "price" s).searchResults ∧
    ((∀ t ∈ s.searchResults, t.releaseDate ≠ ReleaseDate.invalid) →
      (sortResults "releaseDate" (sortResults "releaseDate" s)).searchResults
        = (sortResults "releaseDate" s).searchResults ∧
      (sortByReleaseDateWith mergeArraySort s).searchResults
        = (sortResults "releaseDate" s).searchResults ∧
      (sortByReleaseDateWith mergeArraySort
          (sortByReleaseDateWith mergeArraySort s)).searchResults
        = (sortByReleaseDateWith mergeArraySort s).searchResults) := by
  refine ⟨?_, fun hvalid => ?_⟩
  · rw [sortResults_price_results, sortResults_price_results]
    exact (arraySort_sub_spec sortPrice s.searchResults).2.2.2
  · have hidem : (sortResults "releaseDate" (sortResults "releaseDate" s)).searchResults
        = (sortResults "releaseDate" s).searchResults := by
      rw [sortResults_releaseDate_results, sortResults_releaseDate_results,
        sortResults_releaseDate_key _ hvalid]
      have hperm := (arraySort_sub_spec (fun t : Track => -dateKey t.releaseDate)
        s.searchResults).1
      rw [sortResults_releaseDate_key _ (fun t ht => hvalid t (hperm.subset ht))]
      exact (arraySort_sub_spec (fun t : Track => -dateKey t.releaseDate)
        s.searchResults).2.2.2
    have hmerge : (sortByReleaseDateWith mergeArraySort s).searchResults
        = (sortResults "releaseDate" s).searchResults := by
      rw [sortResults_releaseDate_results]
      exact mergeArraySort_releaseDate_eq _ hvalid
    have hvalid2 : ∀ t ∈ (sortResults "releaseDate" s).searchResults,
        t.releaseDate ≠ ReleaseDate.invalid := by
      intro t ht
      rw [sortResults_releaseDate_results] at ht
      exact hvalid t ((List.perm_insertionSort _ _).subset ht)
    refine ⟨hidem, hmerge, ?_⟩
    have hstep : (sortByReleaseDateWith mergeArraySort
        (sortByReleaseDateWith mergeArraySort s)).searchResults
          = mergeArraySort
              (fun a b : Track =>
                nanToZero (jsSub (dateValue b.releaseDate) (dateValue a.releaseDate)))
              (sortByReleaseDateWith mergeArraySort s).searchResults := rfl
    rw [hstep, hmerge, mergeArraySort_releaseDate_eq _ hvalid2]
    rw [sortResults_releaseDate_results (sortResults "releaseDate" s)] at hidem
    exact hidem

/-- Claim C10 (amended) at a concrete list without invalid dates: track 1
without date (`null`), track 2 dated 2020-01-01 and track 3 dated 2023-01-01
are sorted by `releaseDate` twice. -/
theorem sortResults_idempotent_witness :
    (sortResults "releaseDate" (sortResults "releaseDate"
        { initialState with
          searchResults :=
            [{ trackId := 1 },
             { trackId := 2, releaseDate := .date 1577836800000 },
             { trackId := 3, releaseDate := .date 1672531200000 }] })).searchResults
      = (sortResults "releaseDate"
        { initialState with
          searchResults :=
            [{ trackId := 1 },
             { trackId := 2, releaseDate := .date 1577836800000 },
             { trackId := 3, releaseDate := .date 1672531200000 }] }).searchResults :=
  ((sortResults_idempotent
      { initialState with
        searchResults :=
          [{ trackId := 1 },
           { trackId := 2, releaseDate := .date 1577836800000 },
           { trackId := 3, releaseDate := .date 1672531200000 }] }).2 (by decide)).1

/-! ## Theorems: preview playback -/

/-- The handlers of `DetailCard.jsx` are those of `DataTable.jsx`. -/
theorem DetailCard.handlers_eq :
    DetailCard.handlePlayPause = DataTable.handlePlayPause ∧
    DetailCard.handleAudioEnded = DataTable.handleAudioEnded :=
  ⟨rfl, rfl⟩

/-- The state `currentlyPlaying` after `handlePlayPause`, by cases. -/
theorem DataTable.handlePlayPause_currentlyPlaying (trackId : Nat)
    (previewUrl : Option String) (p : PlayerState) :
    (DataTable.handlePlayPause trackId previewUrl p).currentlyPlaying =
      if hasPreview previewUrl = true then
        (if p.currentlyPlaying = some trackId then none else some trackId)
      else p.currentlyPlaying := by
  unfold DataTable.handlePlayPause
  cases hasPreview previewUrl <;> simp
  split <;> rfl

/-- Claim C11: `handlePlayPause` and `handleAudioEnded` implement the
playback state machine over Idle (`currentlyPlaying` is `null`) and
Playing(id), in `DataTable.jsx` and in `DetailCard.jsx` alike. The initial
state is Idle. With a preview URL present, a toggle of `id` from Idle gives
Playing(id), a toggle of `id` from Playing(id) gives Idle, and a toggle of
`id2` from Playing(id) with `id2 ≠ id` gives Playing(id2). The ended event
gives Idle from any state. A toggle without preview URL leaves the state and
the audio element as they are and shows the notice. E.g. toggle(5), toggle(5)
ends Idle; toggle(5), toggle(7) ends Playing(7). -/
theorem playback_state_machine (p : PlayerState) (id id2 : Nat)
    (previewUrl : Option String) :
    initialPlayer.currentlyPlaying = none ∧
    (hasPreview previewUrl = true → p.currentlyPlaying = none →
      (DataTable.handlePlayPause id previewUrl p).currentlyPlaying = some id ∧
      (DetailCard.handlePlayPause id previewUrl p).currentlyPlaying = some id) ∧
    (hasPreview previewUrl = true → p.currentlyPlaying = some id →
      (DataTable.handlePlayPause id previewUrl p).currentlyPlaying = none ∧
      (DetailCard.handlePlayPause id previewUrl p).currentlyPlaying = none) ∧
    (hasPreview previewUrl = true → p.currentlyPlaying = some id → id2 ≠ id →
      (DataTable.handlePlayPause id2 previewUrl p).currentlyPlaying = some id2 ∧
      (DetailCard.handlePlayPause id2 previewUrl p).currentlyPlaying = some id2) ∧
    ((DataTable.handleAudioEnded p).currentlyPlaying = none ∧
      (DetailCard.handleAudioEnded p).currentlyPlaying = none) ∧
    (hasPreview previewUrl = false →
      DataTable.handlePlayPause id previewUrl p
        = { p with alerts := p.alerts ++ ["No preview available for this track"] } ∧
      DetailCard.handlePlayPause id previewUrl p
        = { p with alerts := p.alerts ++ ["No preview available for this track"] }) ∧
    (DataTable.handlePlayPause 5 (some "u5")
        (DataTable.handlePlayPause 5 (some "u5") initialPlayer)).currentlyPlaying = none ∧
    (DataTable.handlePlayPause 7 (some "u7")
        (DataTable.handlePlayPause 5 (some "u5") initialPlayer)).currentlyPlaying
      = some 7 := by
  have hcp := DataTable.handlePlayPause_currentlyPlaying
  refine ⟨rfl, fun hu hp => ?_, fun hu hp => ?_, fun hu hp hne => ?_, ⟨rfl, rfl⟩,
    fun hu => ?_, by decide, by decide⟩
  · have h : (DataTable.handlePlayPause id previewUrl p).currentlyPlaying = some id := by
      rw [hcp, if_pos hu, hp]; simp
    exact ⟨h, h⟩
  · have h : (DataTable.handlePlayPause id previewUrl p).currentlyPlaying = none := by
      rw [hcp, if_pos hu, if_pos hp]
    exact ⟨h, h⟩
  · have h : (DataTable.handlePlayPause id2 previewUrl p).currentlyPlaying = some id2 := by
      rw [hcp, if_pos hu, hp, if_neg]
      intro hEq
      exact hne (Option.some.inj hEq).symm
    exact ⟨h, h⟩
  · have h : DataTable.handlePlayPause id previewUrl p
        = { p with alerts := p.alerts ++ ["No preview available for this track"] } := by
      simp [DataTable.handlePlayPause, hu]
    exact ⟨h, h⟩

/-- Claim C11 at concrete states: track 5 is toggled from Idle, track 7 is
toggled while 5 plays, and a track without preview is toggled while 5 plays. -/
theorem playback_state_machine_witness :
    (DataTable.handlePlayPause 5 (some "u5") initialPlayer).currentlyPlaying = some 5 ∧
    (DataTable.handlePlayPause 7 (some "u7")
        { initialPlayer with currentlyPlaying := some 5 }).currentlyPlaying = some 7 ∧
    (DataTable.handlePlayPause 5 (some "u5")
        { initialPlayer with currentlyPlaying := some 5 }).currentlyPlaying = none ∧
    DataTable.handlePlayPause 9 none { initialPlayer with currentlyPlaying := some 5 }
      = { initialPlayer with
          currentlyPlaying := some 5
          alerts := ["No preview available for this track"] } :=
  ⟨((playback_state_machine initialPlayer 5 5 (some "u5")).2.1 (by decide) rfl).1,
    ((playback_state_machine { initialPlayer with currentlyPlaying := some 5 } 5 7
      (some "u7")).2.2.2.1 (by decide) rfl (by decide)).1,
    ((playback_state_machine { initialPlayer with currentlyPlaying := some 5 } 5 5
      (some "u5")).2.2.1 (by decide) rfl).1,
    ((playback_state_machine { initialPlayer with currentlyPlaying := some 5 } 9 9
      none).2.2.2.2.2.1 rfl).1⟩

/-- Claim C12 (counterexample): with both views rendered and nothing playing,
a toggle of track 5 in the results table followed by a toggle of track 7 in
the playlist cards leaves the results view in Playing(5) and the playlist
view in Playing(7); the audio element of the results view received its
`loadAndPlay` command and no `pause`. -/
theorem both_views_playing :
    (playbackRun {} [.resultsToggle 5 (some "u5"), .playlistToggle 7 (some "u7")]).results
      = { currentlyPlaying := some 5, commands := [AudioCommand.loadAndPlay "u5"] } ∧
    (playbackRun {} [.resultsToggle 5 (some "u5"), .playlistToggle 7 (some "u7")]).playlist
      = { currentlyPlaying := some 7, commands := [AudioCommand.loadAndPlay "u7"] } := by
  decide

/-- Claim C12 (amended): at most one track is playing at any time within each
view, not across the two views. Each view keeps its own `currentlyPlaying`
(a single identifier or `null`) and its own audio element: an event of the
results table leaves the playback state of the playlist cards unchanged, an
event of the playlist cards leaves that of the results table unchanged, and
within a view a toggle of another track with a preview replaces the track
that was playing. -/
theorem playback_per_view (v : Players) (trackId : Nat) (previewUrl : Option String) :
    (playbackStep v (.resultsToggle trackId previewUrl)).playlist = v.playlist ∧
    (playbackStep v .resultsEnded).playlist = v.playlist ∧
    (playbackStep v (.playlistToggle trackId previewUrl)).results = v.results ∧
    (playbackStep v .playlistEnded).results = v.results ∧
    (hasPreview previewUrl = true → v.results.currentlyPlaying ≠ some trackId →
      (playbackStep v (.resultsToggle trackId previewUrl)).results.currentlyPlaying
        = some trackId) ∧
    (hasPreview previewUrl = true → v.playlist.currentlyPlaying ≠ some trackId →
      (playbackStep v (.playlistToggle trackId previewUrl)).playlist.currentlyPlaying
        = some trackId) := by
  have hcp := DataTable.handlePlayPause_currentlyPlaying
  refine ⟨rfl, rfl, rfl, rfl, fun hu hne => ?_, fun hu hne => ?_⟩
  · show (DataTable.handlePlayPause trackId previewUrl v.results).currentlyPlaying = _
    rw [hcp, if_pos hu, if_neg hne]
  · show (DataTable.handlePlayPause trackId previewUrl v.playlist).currentlyPlaying = _
    rw [hcp, if_pos hu, if_neg hne]

/-- Claim C12 (amended) at a concrete state: track 5 plays in the results
view and track 7 in the playlist view; a toggle of track 6 in the results
view replaces track 5 there and leaves the playlist view in Playing(7). -/
theorem playback_per_view_witness :
    (playbackStep
        { results := { currentlyPlaying := some 5 }, playlist := { currentlyPlaying := some 7 } }
        (.resultsToggle 6 (some "u6"))).results.currentlyPlaying = some 6 ∧
    (playbackStep
        { results := { currentlyPlaying := some 5 }, playlist := { currentlyPlaying := some 7 } }
        (.resultsToggle 6 (some "u6"))).playlist.currentlyPlaying = some 7 :=
  ⟨(playback_per_view
      { results := { currentlyPlaying := some 5 }, playlist := { currentlyPlaying := some 7 } }
      6 (some "u6")).2.2.2.2.1 (by decide) (by decide),
    congrArg PlayerState.currentlyPlaying
      (playback_per_view
        { results := { currentlyPlaying := some 5 },
          playlist := { currentlyPlaying := some 7 } }
        6 (some "u6")).1⟩

/-- Claim C13: `removeFromPlaylist(id)` yields exactly the entries of the
playlist whose `trackId` differs from `id`, in their original order: the
result is a sublist of the playlist, an entry is in it exactly when it is in
the playlist with another `trackId`, and every entry with another `trackId`
occurs as often as before. When no entry has that `id` the playlist is
unchanged. No notice is shown, and the search results, the sort key and the
error message are left as they are. -/
theorem removeFromPlaylist_spec (J : JSONBuiltins) (s : AppState) (id : Nat) :
    (removeFromPlaylist J id s).playlist
      = s.playlist.filter (fun item => decide (item.trackId ≠ id)) ∧
    (removeFromPlaylist J id s).playlist.Sublist s.playlist ∧
    (∀ item, item ∈ (removeFromPlaylist J id s).playlist ↔
      item ∈ s.playlist ∧ item.trackId ≠ id) ∧
    (∀ item, item.trackId ≠ id →
      (removeFromPlaylist J id s).playlist.count item = s.playlist.count item) ∧
    ((∀ item ∈ s.playlist, item.trackId ≠ id) →
      (removeFromPlaylist J id s).playlist = s.playlist) ∧
    (removeFromPlaylist J id s).alerts = s.alerts ∧
    (removeFromPlaylist J id s).searchResults = s.searchResults ∧
    (removeFromPlaylist J id s).sortBy = s.sortBy ∧
    (removeFromPlaylist J id s).error = s.error := by
  have hf : (removeFromPlaylist J id s).playlist
      = s.playlist.filter (fun item => decide (item.trackId ≠ id)) := by
    simp only [removeFromPlaylist]
    congr 1
    funext item
    by_cases h : item.trackId = id <;> simp [h]
  refine ⟨hf, ?_, fun item => ?_, fun item hne => ?_, fun h => ?_, rfl, rfl, rfl, rfl⟩
  · rw [hf]; exact List.filter_sublist _
  · rw [hf]; simp [List.mem_filter]
  · rw [hf, List.count_filter]
    simpa using hne
  · rw [hf, List.filter_eq_self]
    intro item hitem
    simpa using h item hitem

/-- Claim C13 at concrete playlists: track 2 is removed from the playlist
1, 2, 3, and the absent track 9 is removed from it. -/
theorem removeFromPlaylist_spec_witness :
    (removeFromPlaylist refJSON 2
        { initialState with
          playlist := [{ trackId := 1 }, { trackId := 2 }, { trackId := 3 }] }).playlist
      = [{ trackId := 1 }, { trackId := 3 }] ∧
    (removeFromPlaylist refJSON 9
        { initialState with
          playlist := [{ trackId := 1 }, { trackId := 2 }, { trackId := 3 }] }).playlist
      = [{ trackId := 1 }, { trackId := 2 }, { trackId := 3 }] := by
  refine ⟨?_, (removeFromPlaylist_spec refJSON
    { initialState with
      playlist := [{ trackId := 1 }, { trackId := 2 }, { trackId := 3 }] } 9).2.2.2.2.1
    (by decide)⟩
  rw [(removeFromPlaylist_spec refJSON _ 2).1]
  decide

/-! ## Theorems: request construction -/

/-- A hexadecimal digit is one of the sixteen digit characters. -/
theorem hexDigit_mem (d : Nat) : hexDigit d ∈ "0123456789ABCDEF".data := by
  unfold hexDigit
  by_cases h : d < 16
  · interval_cases d <;> decide
  · rw [List.getD_eq_default _ _ (by simpa using h)]
    decide

/-- A hexadecimal digit is an unreserved character. -/
theorem hexDigit_unreserved (d : Nat) : isUriUnreserved (hexDigit d) = true := by
  have h : ∀ x ∈ "0123456789ABCDEF".data, isUriUnreserved x = true := by decide
  exact h _ (hexDigit_mem d)

/-- Escape sequences consist of `%` and unreserved characters. -/
theorem percentEncodeBytes_chars (bs : List Nat) :
    ∀ x ∈ percentEncodeBytes bs, isUriUnreserved x = true ∨ x = '%' := by
  induction bs with
  | nil => intro x hx; simp [percentEncodeBytes] at hx
  | cons b bs ih =>
    intro x hx
    simp only [percentEncodeBytes, percentEncodeByte, List.mem_append, List.mem_cons,
      List.mem_singleton, List.not_mem_nil, or_false] at hx
    rcases hx with (h | h | h) | h
    · exact Or.inr h
    · exact Or.inl (h ▸ hexDigit_unreserved _)
    · exact Or.inl (h ▸ hexDigit_unreserved _)
    · exact ih x h

/-- The output of `encodeURIComponent` consists of `%` and unreserved
characters. -/
theorem encodeChars_chars (cs : List Char) :
    ∀ x ∈ encodeChars cs, isUriUnreserved x = true ∨ x = '%' := by
  induction cs with
  | nil => intro x hx; simp [encodeChars] at hx
  | cons c cs ih =>
    intro x hx
    simp only [encodeChars, List.mem_append] at hx
    rcases hx with h | h
    · unfold encodeChar at h
      split at h
      · rename_i hc
        simp only [List.mem_singleton] at h
        exact Or.inl (h ▸ hc)
      · exact percentEncodeBytes_chars _ x h
    · exact ih x h

/-- The output of `encodeURIComponent` holds no `&`. -/
theorem encodeChars_no_amp (cs : List Char) : '&' ∉ encodeChars cs := by
  intro h
  rcases encodeChars_chars cs _ h with h1 | h1
  · exact absurd h1 (by decide)
  · exact absurd h1 (by decide)

/-- A text without the separator is one piece. -/
theorem splitOn_of_not_mem (sep : Char) (xs : List Char) (h : sep ∉ xs) :
    splitOn sep xs = [xs] := by
  induction xs with
  | nil => rfl
  | cons c cs ih =>
    have hc : c ≠ sep := fun e => h (e ▸ List.mem_cons_self _ _)
    have hcs : sep ∉ cs := fun e => h (List.mem_cons_of_mem _ e)
    simp [splitOn, hc, ih hcs]

/-- A text without the separator, followed by the separator, is the first
piece. -/
theorem splitOn_append (sep : Char) (xs ys : List Char) (h : sep ∉ xs) :
    splitOn sep (xs ++ sep :: ys) = xs :: splitOn sep ys := by
  induction xs with
  | nil => simp [splitOn]
  | cons c cs ih =>
    have hc : c ≠ sep := fun e => h (e ▸ List.mem_cons_self _ _)
    have hcs : sep ∉ cs := fun e => h (List.mem_cons_of_mem _ e)
    simp [splitOn, hc, ih hcs]

/-- The characters of the URL built by `handleSearch`. -/
theorem handleSearch.url_data (f : FormData) :
    (handleSearch.url f).data =
      "https://itunes.apple.com/search?".data ++
        (("term=".data ++ encodeChars f.keyword.data) ++ '&' ::
          (("media=".data ++ f.mediaType.data) ++ '&' ::
            (("country=".data ++ f.country.data) ++ '&' ::
              (("limit=".data ++ f.limit.data) ++
                (if handleSearch.explicitParam f.explicit ≠ "" then
                  '&' :: ("explicit=".data ++ (handleSearch.explicitParam f.explicit).data)
                else []))))) := by
  unfold handleSearch.url encodeURIComponent
  split <;> simp [String.data_append, List.append_assoc]

/-- The query of the built URL starts after the fixed address. -/
theorem queryString_search (rest : List Char) :
    queryString ("https://itunes.apple.com/search?".data ++ rest) = rest :=
  rfl

/-- The parameters of the built URL, by the value of `explicitParam`. -/
theorem handleSearch.url_params (f : FormData) (hm : '&' ∉ f.mediaType.data)
    (hc : '&' ∉ f.country.data) (hl : '&' ∉ f.limit.data) :
    queryParams (handleSearch.url f) =
      [("term", encodeURIComponent f.keyword), ("media", f.mediaType),
        ("country", f.country), ("limit", f.limit)] ++
      (if f.explicit = "yes" then [("explicit", "Yes")]
        else if f.explicit = "no" then [("explicit", "No")] else []) := by
  have h1 : '&' ∉ "term=".data ++ encodeChars f.keyword.data := by
    rw [List.mem_append, not_or]
    exact ⟨by decide, encodeChars_no_amp _⟩
  have h2 : '&' ∉ "media=".data ++ f.mediaType.data := by
    rw [List.mem_append, not_or]
    exact ⟨by decide, hm⟩
  have h3 : '&' ∉ "country=".data ++ f.country.data := by
    rw [List.mem_append, not_or]
    exact ⟨by decide, hc⟩
  have h4 : '&' ∉ "limit=".data ++ f.limit.data := by
    rw [List.mem_append, not_or]
    exact ⟨by decide, hl⟩
  unfold queryParams
  rw [handleSearch.url_data, queryString_search, splitOn_append _ _ _ h1,
    splitOn_append _ _ _ h2, splitOn_append _ _ _ h3]
  by_cases hy : f.explicit = "yes"
  · have he : handleSearch.explicitParam f.explicit = "Yes" := by
      simp [handleSearch.explicitParam, hy]
    rw [he, if_pos (by decide), if_pos hy, splitOn_append _ _ _ h4,
      splitOn_of_not_mem _ _ (by decide)]
    rfl
  · by_cases hn : f.explicit = "no"
    · have he : handleSearch.explicitParam f.explicit = "No" := by
        simp [handleSearch.explicitParam, hn]
      rw [he, if_pos (by decide), if_neg hy, if_pos hn, splitOn_append _ _ _ h4,
        splitOn_of_not_mem _ _ (by decide)]
      rfl
    · have he : handleSearch.explicitParam f.explicit = "" := by
        simp [handleSearch.explicitParam, hy, hn]
      rw [he, if_neg (by decide), if_neg hy, if_neg hn, List.append_nil,
        splitOn_of_not_mem _ _ h4]
      rfl

/-- Claim C14: for every query whose media type and country are values of
the select controls, whose limit is a decimal numeral and whose explicit
preference is one of the radio values, the URL built by `handleSearch`
carries, in this order, `term` with the percent-encoded keyword (only `%` and
unreserved characters), `media`, `country` and `limit` with the values of the
form, and then an `explicit` parameter exactly when the preference is not
`all`: `explicit=Yes` for `yes`, `explicit=No` for `no`, and no such
parameter for `all`. -/
theorem handleSearch_url_spec (f : FormData) (hm : f.mediaType ∈ mediaTypes)
    (hc : f.country ∈ countries) (hl : f.limit.data.all Char.isDigit = true)
    (he : f.explicit ∈ ["all", "yes", "no"]) :
    queryParams (handleSearch.url f) =
      [("term", encodeURIComponent f.keyword), ("media", f.mediaType),
        ("country", f.country), ("limit", f.limit)] ++
      (if f.explicit = "all" then []
        else [("explicit", if f.explicit = "yes" then "Yes" else "No")]) ∧
    (∀ c ∈ (encodeURIComponent f.keyword).data, isUriUnreserved c = true ∨ c = '%') ∧
    ((∃ v, ("explicit", v) ∈ queryParams (handleSearch.url f)) ↔ f.explicit ≠ "all") := by
  have hm1 : '&' ∉ f.mediaType.data := by
    have h : ∀ m ∈ mediaTypes, '&' ∉ m.data := by decide
    exact h _ hm
  have hc1 : '&' ∉ f.country.data := by
    have h : ∀ m ∈ countries, '&' ∉ m.data := by decide
    exact h _ hc
  have hl1 : '&' ∉ f.limit.data := by
    intro h
    have := List.all_eq_true.mp hl _ h
    exact absurd this (by decide)
  have hp := handleSearch.url_params f hm1 hc1 hl1
  have hcases : f.explicit = "all" ∨ f.explicit = "yes" ∨ f.explicit = "no" := by
    simpa using he
  refine ⟨?_, encodeChars_chars _, ?_⟩
  · rw [hp]
    rcases hcases with h | h | h <;> simp [h]
  · rw [hp]
    rcases hcases with h | h | h <;> simp [h]

/-- Claim C14 at a concrete query: the keyword `daft punk` in music of the
US store, limit 25, explicit preference `no`. -/
theorem handleSearch_url_spec_witness :
    queryParams (handleSearch.url ⟨"daft punk", "music", "US", "25", "no"⟩) =
      [("term", "daft%20punk"), ("media", "music"), ("country", "US"), ("limit", "25"),
        ("explicit", "No")] :=
  (handleSearch_url_spec ⟨"daft punk", "music", "US", "25", "no"⟩
    (by decide) (by decide) (by decide) (by decide)).1

end MusicApp
